import Mathlib

/-!
Verification development for the `blocking` crate (src/lib.rs).

The development shallowly embeds the three subsystems the specification
describes:

* the SPSC byte ring (`Pipe` / `Reader::poll_read` / `Writer::poll_write`),
  modelled as a state machine whose atomic steps are whole poll calls (the
  endpoints are serialized, so each reload of an atomic index observes the
  current shared value);
* the blocking executor (`Executor::schedule` / `main_loop` / `grow_pool`),
  modelled as a counting transition system over worker control points, every
  transition being a critical section under the executor mutex;
* the `Blocking` handle state machine (`poll_stop`, `into_inner`, `get_mut`,
  `Future::poll`) and the writing-side spawned task loop.

Bytes are `Nat`s; buffers are `Nat → Nat`; usize arithmetic is `Nat`
arithmetic (the source asserts `cap.checked_mul(2).is_some()`, so index
arithmetic in `0..2*cap` never overflows).
-/

set_option maxRecDepth 16000

namespace BlockingCrate

/-- `std::task::Poll`. -/
inductive Poll (α : Type) where
  | pending
  | ready (a : α)
deriving DecidableEq, Repr

/-! ### The SPSC byte ring (src/lib.rs lines 723-1065)

State of one pipe.  `buffer` is the raw byte buffer (physical indices
`0..cap`), `head`/`tail` are the shared atomic indices in `0..2*cap`,
`rTail` is the reader's snapshot of `tail` (`Reader.tail`), `wHead` the
writer's snapshot of `head` (`Writer.head`).  `rWaker`/`wWaker` record
whether a waker is registered in `inner.reader` / `inner.writer`;
`rNotified`/`wNotified` are ghost flags set whenever `wake()` is called on
the corresponding `AtomicWaker`. -/

structure PipeState where
  buffer : Nat → Nat
  head : Nat
  tail : Nat
  rTail : Nat
  wHead : Nat
  zeroedUntil : Nat
  closed : Bool
  rWaker : Bool
  wWaker : Bool
  rNotified : Bool
  wNotified : Bool

/-- The `distance` closure of `poll_read`/`poll_write` (lines 873-879). -/
def dist (cap a b : Nat) : Nat :=
  if a ≤ b then b - a else 2 * cap - (a - b)

/-- The `real_index` closure (lines 911-917): map an index in `0..2*cap`
to the physical index in `0..cap`. -/
def realIndex (cap i : Nat) : Nat :=
  if i < cap then i else i - cap

/-- The index-advance branch (lines 944-948 and 1053-1057):
`if i + n < 2*cap { i += n } else { i = 0 }`. -/
def advance (cap i n : Nat) : Nat :=
  if i + n < 2 * cap then i + n else 0

/-- `ptr.add(lo).write_bytes(0, hi - lo)`: zero the physical range `[lo, hi)`. -/
def zeroRange (buf : Nat → Nat) (lo hi : Nat) : Nat → Nat :=
  fun i => if lo ≤ i ∧ i < hi then 0 else buf i

/-- `src.read(slice)` writing `data` into the buffer at physical offset `start`. -/
def writeRange (buf : Nat → Nat) (start : Nat) (data : List Nat) : Nat → Nat :=
  fun i => if start ≤ i ∧ i - start < data.length then data.getD (i - start) 0 else buf i

/-- The `n` bytes stored in the ring starting at logical index `i`
(physical position of logical `i + k` is `(i + k) % cap`). -/
def ringSeg (cap : Nat) (buf : Nat → Nat) (i n : Nat) : List Nat :=
  (List.range n).map fun k => buf ((i + k) % cap)

/-- The reader's per-iteration chunk bound (lines 924-926):
`min(128 KiB, distance(head, tail), cap - real_index(head))`
(`self.tail` is the reader's snapshot `rTail`). -/
def readChunk (cap : Nat) (s : PipeState) : Nat :=
  min (min (128 * 1024) (dist cap s.head s.rTail)) (cap - realIndex cap s.head)

/-- The writer's per-iteration chunk bound (lines 1019-1022):
`min(128 KiB, zeroed_until*2 + 4096, cap - distance(head, tail), cap - real_index(tail))`
(`self.head` is the writer's snapshot `wHead`). -/
def writeChunk (cap : Nat) (s : PipeState) : Nat :=
  min (min (min (128 * 1024) (s.zeroedUntil * 2 + 4096))
    (cap - dist cap s.wHead s.tail)) (cap - realIndex cap s.tail)

/-- One iteration of the `Reader::poll_read` transfer loop (lines 922-955).
`destCap` is the space remaining in `dest`; `dest.write` accepts
`min(chunk, destCap)` bytes.  On a non-zero transfer the head is advanced,
published, and the writer waker is woken (`wNotified`). -/
def readIter (cap : Nat) (s : PipeState) (destCap : Nat) : PipeState × List Nat :=
  if min (readChunk cap s) destCap = 0 then (s, [])
  else
    ({ s with head := advance cap s.head (min (readChunk cap s) destCap),
              wWaker := false, wNotified := true },
     (List.range (min (readChunk cap s) destCap)).map
       fun k => s.buffer (realIndex cap s.head + k))

/-- The `Reader::poll_read` transfer loop (lines 922-955): iterate until the
destination accepts zero bytes; return the accumulated bytes. -/
def readLoop (cap : Nat) (s : PipeState) (destCap : Nat) (acc : List Nat) :
    PipeState × List Nat :=
  if h : ((readIter cap s destCap).2).length = 0 then ((readIter cap s destCap).1, acc)
  else
    readLoop cap (readIter cap s destCap).1 (destCap - ((readIter cap s destCap).2).length)
      (acc ++ (readIter cap s destCap).2)
termination_by destCap
decreasing_by
  have hle : ((readIter cap s destCap).2).length ≤ destCap := by
    unfold readIter
    by_cases h2 : min (readChunk cap s) destCap = 0
    · simp [h2]
    · simp only [h2, if_false, List.length_map, List.length_range]
      exact min_le_right _ _
  omega

/-- The zero-initialization step of a `poll_write` iteration (lines 1029-1036):
if `zeroed_until < to` (with `to = real_index(tail) + n` the end of the slice
about to be exposed), zero `[zeroed_until, to)` and record the new watermark. -/
def writeZero (cap : Nat) (s : PipeState) : PipeState :=
  if s.zeroedUntil < realIndex cap s.tail + writeChunk cap s then
    { s with
        buffer := zeroRange s.buffer s.zeroedUntil (realIndex cap s.tail + writeChunk cap s),
        zeroedUntil := realIndex cap s.tail + writeChunk cap s }
  else s

/-- One iteration of the `Writer::poll_write` transfer loop (lines 1017-1064).
Zero the buffer up to the end of the exposed slice if needed, expose the
slice `[start, start+n)` to `src`, which fills `min(n, src.length)` bytes;
on a non-zero transfer advance and publish the tail and wake the reader
(`rNotified`). -/
def writeIter (cap : Nat) (s : PipeState) (src : List Nat) : PipeState × Nat :=
  if min (writeChunk cap s) src.length = 0 then
    ({ writeZero cap s with
        buffer := writeRange (writeZero cap s).buffer (realIndex cap s.tail)
          (src.take (min (writeChunk cap s) src.length)) }, 0)
  else
    ({ writeZero cap s with
        buffer := writeRange (writeZero cap s).buffer (realIndex cap s.tail)
          (src.take (min (writeChunk cap s) src.length)),
        tail := advance cap s.tail (min (writeChunk cap s) src.length),
        rWaker := false, rNotified := true },
     min (writeChunk cap s) src.length)

/-- The `Writer::poll_write` transfer loop (lines 1017-1064): iterate until
the source yields zero bytes; return the byte count. -/
def writeLoop (cap : Nat) (s : PipeState) (src : List Nat) (count : Nat) :
    PipeState × Nat :=
  if h : (writeIter cap s src).2 = 0 then ((writeIter cap s src).1, count)
  else
    writeLoop cap (writeIter cap s src).1 (List.drop (writeIter cap s src).2 src)
      (count + (writeIter cap s src).2)
termination_by src.length
decreasing_by
  have hle : (writeIter cap s src).2 ≤ src.length := by
    unfold writeIter
    split
    · exact Nat.zero_le _
    · exact min_le_right _ _
  have hdrop := List.length_drop (writeIter cap s src).2 src
  omega

/-- `Reader::poll_read` (lines 868-957).  The endpooints are serialized, so
the double reload of `tail` around the waker registration (register, fence,
reload) observes the same shared `tail`; the two empty checks collapse to
one reload.  When the pipe is found empty the waker stays registered and
the call returns `Ok(0)` if closed, else `Pending`; otherwise the waker is
removed and the transfer loop runs. -/
def pollRead (cap : Nat) (s : PipeState) (destCap : Nat) : PipeState × Poll (List Nat) :=
  if dist cap s.head s.rTail = 0 then
    if dist cap s.head s.tail = 0 then
      if s.closed then ({ s with rTail := s.tail, rWaker := true }, Poll.ready [])
      else ({ s with rTail := s.tail, rWaker := true }, Poll.pending)
    else
      ((readLoop cap { s with rTail := s.tail, rWaker := false } destCap []).1,
       Poll.ready (readLoop cap { s with rTail := s.tail, rWaker := false } destCap []).2)
  else
    ((readLoop cap { s with rWaker := false } destCap []).1,
     Poll.ready (readLoop cap { s with rWaker := false } destCap []).2)

/-- `Writer::poll_write` (lines 959-1065), with the same serialization of the
full-check double reload of `head`. -/
def pollWrite (cap : Nat) (s : PipeState) (src : List Nat) : PipeState × Poll Nat :=
  if s.closed then (s, Poll.ready 0)
  else if dist cap s.wHead s.tail = cap then
    if dist cap s.head s.tail = cap then
      if s.closed then ({ s with wHead := s.head, wWaker := true }, Poll.ready 0)
      else ({ s with wHead := s.head, wWaker := true }, Poll.pending)
    else
      ((writeLoop cap { s with wHead := s.head, wWaker := false } src 0).1,
       Poll.ready (writeLoop cap { s with wHead := s.head, wWaker := false } src 0).2)
  else
    ((writeLoop cap { s with wWaker := false } src 0).1,
     Poll.ready (writeLoop cap { s with wWaker := false } src 0).2)

/-- `Drop for Reader` (lines 852-858): set `closed`, wake the writer. -/
def dropReaderFn (s : PipeState) : PipeState :=
  { s with closed := true, wWaker := false, wNotified := true }

/-- `Drop for Writer` (lines 860-866): set `closed`, wake the reader. -/
def dropWriterFn (s : PipeState) : PipeState :=
  { s with closed := true, rWaker := false, rNotified := true }

/-- New state after a `poll_read` call. -/
def pollReadSt (cap : Nat) (s : PipeState) (destCap : Nat) : PipeState :=
  (pollRead cap s destCap).1

/-- Bytes a `poll_read` call delivered (`Pending` delivers none). -/
def pollReadBytes (cap : Nat) (s : PipeState) (destCap : Nat) : List Nat :=
  match (pollRead cap s destCap).2 with
  | Poll.ready bs => bs
  | Poll.pending => []

/-- New state after a `poll_write` call. -/
def pollWriteSt (cap : Nat) (s : PipeState) (src : List Nat) : PipeState :=
  (pollWrite cap s src).1

/-- Byte count a `poll_write` call consumed from `src` (`Pending` consumes none). -/
def pollWriteCount (cap : Nat) (s : PipeState) (src : List Nat) : Nat :=
  match (pollWrite cap s src).2 with
  | Poll.ready n => n
  | Poll.pending => 0

/-- A pipe together with the ghost history of all bytes ever consumed from
write sources and all bytes ever delivered to read destinations. -/
structure Config where
  pipe : PipeState
  written : List Nat
  readOut : List Nat

/-- One interleaving step on a pipe: a `poll_read` with an arbitrary
destination capacity, a `poll_write` with an arbitrary byte source, or a
drop of either endpoint. -/
inductive PipeStep (cap : Nat) : Config → Config → Prop where
  | read (c : Config) (destCap : Nat) :
      PipeStep cap c ⟨pollReadSt cap c.pipe destCap, c.written,
        c.readOut ++ pollReadBytes cap c.pipe destCap⟩
  | write (c : Config) (src : List Nat) :
      PipeStep cap c ⟨pollWriteSt cap c.pipe src,
        c.written ++ src.take (pollWriteCount cap c.pipe src), c.readOut⟩
  | dropR (c : Config) :
      PipeStep cap c ⟨dropReaderFn c.pipe, c.written, c.readOut⟩
  | dropW (c : Config) :
      PipeStep cap c ⟨dropWriterFn c.pipe, c.written, c.readOut⟩

/-- `pipe(cap)` (lines 732-765): both indices zero, nothing zeroed, open;
the buffer is allocated uninitialized, so its contents are arbitrary. -/
def initPipe (buf : Nat → Nat) : PipeState :=
  ⟨buf, 0, 0, 0, 0, 0, false, false, false, false, false⟩

/-- Configurations reachable by interleaving reads, writes and drops from a
freshly created pipe (`cap > 0` is asserted by `pipe()`). -/
inductive PipeReach (cap : Nat) : Config → Prop where
  | init (buf : Nat → Nat) (h : 0 < cap) : PipeReach cap ⟨initPipe buf, [], []⟩
  | step {c c2 : Config} : PipeReach cap c → PipeStep cap c c2 → PipeReach cap c2

/-- The documented invariants of the ring (lines 768-818): indices live in
`0..2*cap`, the in-flight distance is at most `cap`, each endpoint's
snapshot of the other index lags behind the shared value, and the zeroed
prefix covers the physical tail position. -/
structure PipeInv (cap : Nat) (s : PipeState) : Prop where
  capPos : 0 < cap
  headLt : s.head < 2 * cap
  tailLt : s.tail < 2 * cap
  rTailLt : s.rTail < 2 * cap
  wHeadLt : s.wHead < 2 * cap
  distLe : dist cap s.head s.tail ≤ cap
  rTailLe : dist cap s.head s.rTail ≤ dist cap s.head s.tail
  wHeadDistLe : dist cap s.wHead s.tail ≤ cap
  distLeW : dist cap s.head s.tail ≤ dist cap s.wHead s.tail
  zeroedGe : realIndex cap s.tail ≤ s.zeroedUntil
  zeroedLe : s.zeroedUntil ≤ cap

/-- The ghost-history invariant: everything ever consumed from write sources
equals everything delivered to read destinations followed by the bytes still
queued in the ring. -/
def ConfigInv (cap : Nat) (c : Config) : Prop :=
  PipeInv cap c.pipe ∧
  c.written = c.readOut
    ++ ringSeg cap c.pipe.buffer c.pipe.head (dist cap c.pipe.head c.pipe.tail)

/-! ### The blocking executor (src/lib.rs lines 127-236)

The executor state is abstracted to counters, every mutation happening
inside a critical section of the executor mutex: `queue` is `queue.len()`,
and each worker thread is in exactly one of three control regions —
`fresh` (spawned by `grow_pool`, not yet through its first lock
acquisition at the top of `main_loop`), `running` (after the
`idle_count -= 1` at the loop top, popping and running tasks), `waiting`
(after `idle_count += 1`, inside `cvar.wait_timeout`). -/

structure ExecState where
  idleCount : Nat
  threadCount : Nat
  queue : Nat
  freshCount : Nat
  runningCount : Nat
  waitingCount : Nat
deriving DecidableEq, Repr

/-- `Executor::grow_pool` (lines 221-235), with explicit structural fuel:
`while queue.len() > idle_count * 5 && thread_count < 500`, account the new
thread as idle (`idle_count += 1; thread_count += 1`), then spawn it (one
more `fresh` worker).  The fuel `500 - threadCount` dominates the loop
because every iteration increments `threadCount`, so `growPoolAux` never
exhausts it while the guard holds. -/
def growPoolAux : Nat → ExecState → ExecState
  | 0, st => st
  | fuel + 1, st =>
    if st.queue > st.idleCount * 5 ∧ st.threadCount < 500 then
      growPoolAux fuel
        { st with idleCount := st.idleCount + 1, threadCount := st.threadCount + 1,
                  freshCount := st.freshCount + 1 }
    else st

/-- `Executor::grow_pool` (lines 221-235). -/
def growPool (st : ExecState) : ExecState :=
  growPoolAux (500 - st.threadCount) st

/-- One transition of the executor, as observed under the mutex:
`schedule` (lines 210-218) enqueues and evaluates pool growth; a fresh
worker acquires the lock and decrements `idle_count` (line 179); a waiting
worker is woken (or times out with work present) and decrements
`idle_count` (line 179 again); a running worker pops a task and evaluates
pool growth (lines 182-184); a running worker finds the queue empty and
parks (lines 194-198); a waiting worker times out with an empty queue and
exits (lines 202-206). -/
inductive ExecStep : ExecState → ExecState → Prop where
  | schedule (st : ExecState) :
      ExecStep st (growPool { st with queue := st.queue + 1 })
  | acquireFresh (st : ExecState) (h : 0 < st.freshCount) :
      ExecStep st { st with freshCount := st.freshCount - 1,
                            runningCount := st.runningCount + 1,
                            idleCount := st.idleCount - 1 }
  | resume (st : ExecState) (h : 0 < st.waitingCount) :
      ExecStep st { st with waitingCount := st.waitingCount - 1,
                            runningCount := st.runningCount + 1,
                            idleCount := st.idleCount - 1 }
  | pop (st : ExecState) (h : 0 < st.runningCount) (hq : 0 < st.queue) :
      ExecStep st (growPool { st with queue := st.queue - 1 })
  | park (st : ExecState) (h : 0 < st.runningCount) (hq : st.queue = 0) :
      ExecStep st { st with runningCount := st.runningCount - 1,
                            waitingCount := st.waitingCount + 1,
                            idleCount := st.idleCount + 1 }
  | timeoutExit (st : ExecState) (h : 0 < st.waitingCount) (hq : st.queue = 0) :
      ExecStep st { st with waitingCount := st.waitingCount - 1,
                            idleCount := st.idleCount - 1,
                            threadCount := st.threadCount - 1 }

/-- Executor states reachable from the lazily-initialized singleton
(lines 157-164: zero threads, zero idle, empty queue). -/
inductive ExecReach : ExecState → Prop where
  | init : ExecReach ⟨0, 0, 0, 0, 0, 0⟩
  | step {st st2 : ExecState} : ExecReach st → ExecStep st st2 → ExecReach st2

/-- The executor accounting invariant: the thread count decomposes over the
three worker control regions, `idle_count` counts exactly the fresh and the
waiting workers, and the pool never exceeds 500 threads. -/
structure ExecInv (st : ExecState) : Prop where
  threadEq : st.threadCount = st.freshCount + st.runningCount + st.waitingCount
  idleEq : st.idleCount = st.freshCount + st.waitingCount
  threadLe : st.threadCount ≤ 500

/-! ### The `Blocking` handle state machine (src/lib.rs lines 306-508)

`State<T>` with the data each claim needs: whether the `Idle` box still
holds the value, whether the caller-side endpoint (receiver / pipe reader /
pipe writer) is still present, and how the spawned task would answer the
next poll (`pending`, or `ready` with the `io::Result` it stashed —
`none` for `Ok`, `some e` for `Err(e)`). -/

inductive TaskSt where
  | pending
  | ready (err : Option Nat)
deriving DecidableEq, Repr

/-- The five-state `State<T>` (lines 487-508). -/
inductive BState where
  | idle (hasValue : Bool)
  | task (done : Bool)
  | streaming (receiverPresent : Bool) (done : Bool)
  | reading (readerPresent : Bool) (status : TaskSt)
  | writing (writerPresent : Bool) (status : TaskSt)
deriving DecidableEq, Repr

/-- `Blocking::poll_stop` (lines 396-443).  Each non-Idle arm drops the
caller-side endpoint, polls the task, and on completion moves to Idle
before propagating the task's stashed `io::Result` (`res?`); a pending
task leaves the state with the endpoint already taken.  The result is
`ready none` for `Ok(())` and `ready (some e)` for `Err(e)`. -/
def pollStop : BState → BState × Poll (Option Nat)
  | BState.idle b => (BState.idle b, Poll.ready none)
  | BState.task false => (BState.task false, Poll.pending)
  | BState.task true => (BState.idle true, Poll.ready none)
  | BState.streaming _ false => (BState.streaming false false, Poll.pending)
  | BState.streaming _ true => (BState.idle true, Poll.ready none)
  | BState.reading _ TaskSt.pending => (BState.reading false TaskSt.pending, Poll.pending)
  | BState.reading _ (TaskSt.ready none) => (BState.idle true, Poll.ready none)
  | BState.reading _ (TaskSt.ready (some e)) => (BState.idle true, Poll.ready (some e))
  | BState.writing _ TaskSt.pending => (BState.writing false TaskSt.pending, Poll.pending)
  | BState.writing _ (TaskSt.ready none) => (BState.idle true, Poll.ready none)
  | BState.writing _ (TaskSt.ready (some e)) => (BState.idle true, Poll.ready (some e))

/-- `Future for Blocking<T>::poll` (lines 469-484): drive `poll_stop`,
discard its `io::Result` (`let _ = ...`), then take the inner value out of
the Idle slot.  `ready (some b)` reports whether the value was present;
`ready none` marks the `unreachable!` arm. -/
def blockingFuturePoll (s : BState) : BState × Poll (Option Bool) :=
  match pollStop s with
  | (s2, Poll.pending) => (s2, Poll.pending)
  | (BState.idle b, Poll.ready _) => (BState.idle false, Poll.ready (some b))
  | (s2, Poll.ready _) => (s2, Poll.ready none)

/-- `Blocking::into_inner` (lines 376-391): identical shape — await
`poll_stop` ignoring errors, then extract the value. -/
def intoInnerPoll (s : BState) : BState × Poll (Option Bool) :=
  match pollStop s with
  | (s2, Poll.pending) => (s2, Poll.pending)
  | (BState.idle b, Poll.ready _) => (BState.idle false, Poll.ready (some b))
  | (s2, Poll.ready _) => (s2, Poll.ready none)

/-- `Blocking::get_mut` (lines 342-353): await `poll_stop` ignoring errors,
then borrow the value (the Idle slot keeps it). -/
def getMutPoll (s : BState) : BState × Poll (Option Bool) :=
  match pollStop s with
  | (s2, Poll.pending) => (s2, Poll.pending)
  | (BState.idle b, Poll.ready _) => (BState.idle b, Poll.ready (some b))
  | (s2, Poll.ready _) => (s2, Poll.ready none)

/-! ### The writing-side spawned task (src/lib.rs lines 670-683)

The task loops on `reader.poll_read(cx, &mut io)`; each completed read is
an event: `okRead n` for `Ok(n)`, `errRead e` for `Err(e)`.  `flushRes` is
what `io.flush()` would return.  The run returns `none` while the event
trace is exhausted without termination, and `some (result, flushCount)`
when the task returns. -/

inductive ReadEvent where
  | okRead (n : Nat)
  | errRead (e : Nat)
deriving DecidableEq, Repr

/-- The loop body of the writing-side task (lines 673-682):
`Ok(0)` → flush and return `(flush_result, io)`; `Ok(n+1)` → continue;
`Err(err)` → `let _ = io.flush();` and return `(Err(err), io)`. -/
def writeTaskRun (flushRes : Except Nat Unit) : List ReadEvent → Option (Except Nat Unit × Nat)
  | [] => none
  | ReadEvent.okRead 0 :: _ => some (flushRes, 1)
  | ReadEvent.okRead (_ + 1) :: rest => writeTaskRun flushRes rest
  | ReadEvent.errRead e :: _ => some (Except.error e, 1)

/-! ### Example states used by the witnesses -/

/-- A fresh pipe of capacity 1 wrapped in the ghost history. -/
def cfg0 : Config := ⟨initPipe (fun _ => 0), [], []⟩

/-- `cfg0` after one `poll_write` fed from the byte source `[7]`. -/
def cfg1 : Config :=
  ⟨pollWriteSt 1 cfg0.pipe [7],
   cfg0.written ++ List.take (pollWriteCount 1 cfg0.pipe [7]) [7], cfg0.readOut⟩

/-- A closed capacity-1 pipe holding one queued byte. -/
def pipeEx : PipeState := ⟨fun _ => 0, 0, 1, 1, 0, 1, true, false, false, false, false⟩

/-! ### Index arithmetic -/

lemma readIter_len_le (cap : Nat) (s : PipeState) (destCap : Nat) :
    ((readIter cap s destCap).2).length ≤ destCap := by
  unfold readIter
  by_cases h : min (readChunk cap s) destCap = 0
  · simp [h]
  · simp only [h, if_false, List.length_map, List.length_range]
    exact min_le_right _ _

lemma writeIter_cnt_le (cap : Nat) (s : PipeState) (src : List Nat) :
    (writeIter cap s src).2 ≤ src.length := by
  unfold writeIter
  split
  · exact Nat.zero_le _
  · exact min_le_right _ _

lemma realIndex_lt {cap i : Nat} (hi : i < 2 * cap) : realIndex cap i < cap := by
  unfold realIndex; split <;> omega

lemma realIndex_eq_mod {cap i : Nat} (hi : i < 2 * cap) : realIndex cap i = i % cap := by
  unfold realIndex
  split
  · exact (Nat.mod_eq_of_lt (by omega)).symm
  · rw [Nat.mod_eq_sub_mod (by omega)]
    exact (Nat.mod_eq_of_lt (by omega)).symm

lemma advance_lt {cap : Nat} (hc : 0 < cap) (i n : Nat) : advance cap i n < 2 * cap := by
  unfold advance; split <;> omega

lemma advance_eq_mod {cap i n : Nat} (hin : i + n ≤ 2 * cap) :
    advance cap i n = (i + n) % (2 * cap) := by
  unfold advance
  split
  · exact (Nat.mod_eq_of_lt (by omega)).symm
  · have h2 : i + n = 2 * cap := by omega
    rw [h2, Nat.mod_self]

lemma dist_lt {cap a b : Nat} (ha : a < 2 * cap) (hb : b < 2 * cap) :
    dist cap a b < 2 * cap := by
  unfold dist; split <;> omega

lemma dist_eq_zero_iff {cap a b : Nat} (ha : a < 2 * cap) (hb : b < 2 * cap) :
    dist cap a b = 0 ↔ a = b := by
  unfold dist; split <;> omega

lemma mod_cap_of_two_cap (cap x : Nat) : (x % (2 * cap)) % cap = x % cap :=
  Nat.mod_mod_of_dvd x (dvd_mul_left cap 2)

lemma mod_add_right_congr {c x y : Nat} (k : Nat) (h : x % c = y % c) :
    (x + k) % c = (y + k) % c := by
  rw [Nat.add_mod x k, h, ← Nat.add_mod]

lemma mod_dist {cap a b : Nat} (ha : a < 2 * cap) (hb : b < 2 * cap) :
    b % cap = (a + dist cap a b) % cap := by
  unfold dist
  split
  · have h2 : a + (b - a) = b := by omega
    rw [h2]
  · have h2 : a + (2 * cap - (a - b)) = b + cap * 2 := by omega
    rw [h2, Nat.add_mul_mod_self_left]

lemma mod_window {c r u : Nat} (hr : r < c) (hu : u < c) :
    (r + u) % c = if r + u < c then r + u else r + u - c := by
  split
  · exact Nat.mod_eq_of_lt (by omega)
  · rw [Nat.mod_eq_sub_mod (by omega)]
    exact Nat.mod_eq_of_lt (by omega)

lemma mod_add_cancel {c x u v : Nat} (hu : u < c) (hv : v < c)
    (h : (x + u) % c = (x + v) % c) : u = v := by
  have hc : 0 < c := by omega
  have hr : x % c < c := Nat.mod_lt _ hc
  rw [Nat.add_mod x u, Nat.add_mod x v, Nat.mod_eq_of_lt hu, Nat.mod_eq_of_lt hv,
    mod_window hr hu, mod_window hr hv] at h
  split at h <;> split at h <;> omega

lemma dist_advance_right {cap a b n : Nat} (ha : a < 2 * cap) (hb : b < 2 * cap)
    (hbn : b + n ≤ 2 * cap) (hdn : dist cap a b + n < 2 * cap) :
    dist cap a (advance cap b n) = dist cap a b + n := by
  unfold dist at hdn ⊢
  unfold advance
  split at hdn <;> split <;> split <;> omega

lemma dist_advance_left {cap a b n : Nat} (ha : a < 2 * cap) (hb : b < 2 * cap)
    (han : a + n ≤ 2 * cap) (hn : n ≤ dist cap a b) :
    dist cap (advance cap a n) b = dist cap a b - n := by
  unfold dist at hn ⊢
  unfold advance
  split at hn <;> split <;> split <;> omega

lemma head_add_le {cap i n : Nat} (hi : i < 2 * cap) (hn : n ≤ cap - realIndex cap i) :
    i + n ≤ 2 * cap := by
  unfold realIndex at hn; split at hn <;> omega

/-! ### Ring segments -/

lemma ringSeg_zero (cap : Nat) (buf : Nat → Nat) (i : Nat) : ringSeg cap buf i 0 = [] := rfl

lemma ringSeg_length (cap : Nat) (buf : Nat → Nat) (i n : Nat) :
    (ringSeg cap buf i n).length = n := by
  unfold ringSeg; rw [List.length_map, List.length_range]

lemma ringSeg_split (cap : Nat) (buf : Nat → Nat) (i a b : Nat) :
    ringSeg cap buf i (a + b) = ringSeg cap buf i a ++ ringSeg cap buf (i + a) b := by
  unfold ringSeg
  rw [List.range_add, List.map_append, List.map_map]
  congr 1
  apply List.map_congr_left
  intro k _
  simp only [Function.comp_apply]
  congr 2
  omega

lemma ringSeg_congr {cap i j : Nat} (buf : Nat → Nat) (n : Nat) (h : i % cap = j % cap) :
    ringSeg cap buf i n = ringSeg cap buf j n := by
  unfold ringSeg
  apply List.map_congr_left
  intro k _
  rw [mod_add_right_congr k h]

lemma ringSeg_ext {cap i n : Nat} {buf buf2 : Nat → Nat}
    (h : ∀ k, k < n → buf ((i + k) % cap) = buf2 ((i + k) % cap)) :
    ringSeg cap buf i n = ringSeg cap buf2 i n := by
  unfold ringSeg
  apply List.map_congr_left
  intro k hk
  exact h k (List.mem_range.mp hk)

lemma zeroRange_out {buf : Nat → Nat} {lo hi i : Nat} (h : i < lo ∨ hi ≤ i) :
    zeroRange buf lo hi i = buf i := by
  unfold zeroRange
  rw [if_neg]; omega

lemma writeRange_out {buf : Nat → Nat} {start i : Nat} {data : List Nat}
    (h : i < start ∨ start + data.length ≤ i) :
    writeRange buf start data i = buf i := by
  unfold writeRange
  rw [if_neg]; omega

lemma writeRange_in {buf : Nat → Nat} {start i : Nat} {data : List Nat}
    (h1 : start ≤ i) (h2 : i - start < data.length) :
    writeRange buf start data i = data.getD (i - start) 0 := by
  unfold writeRange
  rw [if_pos ⟨h1, h2⟩]

lemma range_map_getD (l : List Nat) (n : Nat) (h : n ≤ l.length) :
    (List.range n).map (fun j => l.getD j 0) = l.take n := by
  apply List.ext_getElem
  · rw [List.length_map, List.length_range, List.length_take]
    omega
  · intro i h1 h2
    rw [List.getElem_map, List.getElem_range, List.getElem_take]
    rw [List.length_map, List.length_range] at h1
    exact l.getD_eq_getElem 0 (by omega)

lemma mod_head_add {cap i k : Nat} (hi : i < 2 * cap) (hk : k < cap - realIndex cap i) :
    (i + k) % cap = realIndex cap i + k := by
  have hr := realIndex_eq_mod hi
  have hrlt := realIndex_lt hi
  rw [Nat.add_mod, ← hr, Nat.mod_eq_of_lt (show k < cap by omega),
    Nat.mod_eq_of_lt (by omega)]

/-- The physical window `[tail % cap, tail % cap + nn)` the writer is about
to touch is disjoint from the physical positions of the `dist head tail`
unread bytes, provided `nn` fits in the free space and does not cross the
buffer boundary. -/
lemma unread_out_of_window {cap head tail k : Nat} (nn : Nat)
    (hh : head < 2 * cap) (ht : tail < 2 * cap)
    (hn1 : nn ≤ cap - dist cap head tail) (hn2 : nn ≤ cap - tail % cap)
    (hk : k < dist cap head tail) :
    ¬ (tail % cap ≤ (head + k) % cap ∧ (head + k) % cap < tail % cap + nn) := by
  rintro ⟨h1, h2⟩
  have hdlt : dist cap head tail < 2 * cap := dist_lt hh ht
  have hc : 0 < cap := by omega
  have htmod : tail % cap < cap := Nat.mod_lt _ hc
  -- name the offset of the hit inside the window
  have ha : (head + k) % cap = tail % cap + ((head + k) % cap - tail % cap) := by omega
  have halt : (head + k) % cap - tail % cap < nn := by omega
  have haltc : tail % cap + ((head + k) % cap - tail % cap) < cap := by omega
  -- the window position is the physical position of logical tail + offset
  have hwin : (tail + ((head + k) % cap - tail % cap)) % cap
      = tail % cap + ((head + k) % cap - tail % cap) := by
    rw [Nat.add_mod, Nat.mod_eq_of_lt (show (head + k) % cap - tail % cap < cap by omega),
      Nat.mod_eq_of_lt (by omega)]
  -- rewrite it as head + (dist + offset)
  have hmd := mod_dist hh ht
  have hshift : (tail + ((head + k) % cap - tail % cap)) % cap
      = (head + (dist cap head tail + ((head + k) % cap - tail % cap))) % cap := by
    rw [mod_add_right_congr _ hmd, Nat.add_assoc]
  have hcontr : (head + k) % cap
      = (head + (dist cap head tail + ((head + k) % cap - tail % cap))) % cap := by
    rw [← hshift, hwin, ← ha]
  have hk2 : k = dist cap head tail + ((head + k) % cap - tail % cap) :=
    mod_add_cancel (by omega) (by omega) hcontr
  omega

/-! ### One read iteration -/

lemma readIter_spec (cap : Nat) (s : PipeState) (destCap : Nat) (hinv : PipeInv cap s) :
    ((readIter cap s destCap).2).length ≤ destCap ∧
    ((readIter cap s destCap).2).length ≤ dist cap s.head s.rTail ∧
    (readIter cap s destCap).1.tail = s.tail ∧
    (readIter cap s destCap).1.rTail = s.rTail ∧
    (readIter cap s destCap).1.wHead = s.wHead ∧
    (readIter cap s destCap).1.buffer = s.buffer ∧
    (readIter cap s destCap).1.zeroedUntil = s.zeroedUntil ∧
    (readIter cap s destCap).1.closed = s.closed ∧
    (readIter cap s destCap).2
      = ringSeg cap s.buffer s.head ((readIter cap s destCap).2).length ∧
    dist cap (readIter cap s destCap).1.head s.tail + ((readIter cap s destCap).2).length
      = dist cap s.head s.tail ∧
    dist cap (readIter cap s destCap).1.head s.rTail + ((readIter cap s destCap).2).length
      = dist cap s.head s.rTail ∧
    (readIter cap s destCap).1.head % cap
      = (s.head + ((readIter cap s destCap).2).length) % cap ∧
    PipeInv cap (readIter cap s destCap).1 ∧
    (((readIter cap s destCap).2).length = 0 → (readIter cap s destCap).1 = s) ∧
    (((readIter cap s destCap).2).length = 0 → min (readChunk cap s) destCap = 0) := by
  have hc := hinv.capPos
  have hh := hinv.headLt
  have hchunk2 : readChunk cap s ≤ dist cap s.head s.rTail :=
    le_trans (min_le_left _ _) (min_le_right _ _)
  have hchunk3 : readChunk cap s ≤ cap - realIndex cap s.head := min_le_right _ _
  unfold readIter
  by_cases h0 : min (readChunk cap s) destCap = 0
  · rw [if_pos h0]
    refine ⟨Nat.zero_le _, Nat.zero_le _, rfl, rfl, rfl, rfl, rfl, rfl, rfl,
      by simp, by simp, by simp, hinv,
      fun _ => rfl, fun _ => h0⟩
  · rw [if_neg h0]
    have hlen : ((List.range (min (readChunk cap s) destCap)).map
        (fun k => s.buffer (realIndex cap s.head + k))).length
        = min (readChunk cap s) destCap := by
      rw [List.length_map, List.length_range]
    have hn2r : min (readChunk cap s) destCap ≤ dist cap s.head s.rTail :=
      le_trans (min_le_left _ _) hchunk2
    have hn2c : min (readChunk cap s) destCap ≤ cap - realIndex cap s.head :=
      le_trans (min_le_left _ _) hchunk3
    have hn2D : min (readChunk cap s) destCap ≤ dist cap s.head s.tail :=
      le_trans hn2r hinv.rTailLe
    have hadd : s.head + min (readChunk cap s) destCap ≤ 2 * cap := head_add_le hh hn2c
    have hbytes : (List.range (min (readChunk cap s) destCap)).map
        (fun k => s.buffer (realIndex cap s.head + k))
        = ringSeg cap s.buffer s.head (min (readChunk cap s) destCap) := by
      unfold ringSeg
      apply List.map_congr_left
      intro k hk
      rw [mod_head_add hh (by have := List.mem_range.mp hk; omega)]
    have hdt : dist cap (advance cap s.head (min (readChunk cap s) destCap)) s.tail
        = dist cap s.head s.tail - min (readChunk cap s) destCap :=
      dist_advance_left hh hinv.tailLt hadd hn2D
    have hdr : dist cap (advance cap s.head (min (readChunk cap s) destCap)) s.rTail
        = dist cap s.head s.rTail - min (readChunk cap s) destCap :=
      dist_advance_left hh hinv.rTailLt hadd hn2r
    have hmod : (advance cap s.head (min (readChunk cap s) destCap)) % cap
        = (s.head + min (readChunk cap s) destCap) % cap := by
      rw [advance_eq_mod hadd, mod_cap_of_two_cap]
    refine ⟨?_, ?_, rfl, rfl, rfl, rfl, rfl, rfl, ?_, ?_, ?_, ?_, ?_, ?_, ?_⟩
    · rw [hlen]; exact min_le_right _ _
    · rw [hlen]; exact hn2r
    · rw [hlen, hbytes]
    · rw [hlen]; dsimp only; omega
    · rw [hlen]; dsimp only; omega
    · rw [hlen]; dsimp only; exact hmod
    · exact { capPos := hc
              headLt := advance_lt hc _ _
              tailLt := hinv.tailLt
              rTailLt := hinv.rTailLt
              wHeadLt := hinv.wHeadLt
              distLe := by
                have := hinv.distLe
                dsimp only
                omega
              rTailLe := by
                dsimp only
                have := hinv.rTailLe
                omega
              wHeadDistLe := hinv.wHeadDistLe
              distLeW := by
                dsimp only
                have := hinv.distLeW
                omega
              zeroedGe := hinv.zeroedGe
              zeroedLe := hinv.zeroedLe }
    · intro hz; rw [hlen] at hz; omega
    · intro hz; rw [hlen] at hz; omega

/-! ### One write iteration -/

lemma writeZero_head (cap : Nat) (s : PipeState) : (writeZero cap s).head = s.head := by
  unfold writeZero; split <;> rfl

lemma writeZero_tail (cap : Nat) (s : PipeState) : (writeZero cap s).tail = s.tail := by
  unfold writeZero; split <;> rfl

lemma writeZero_rTail (cap : Nat) (s : PipeState) : (writeZero cap s).rTail = s.rTail := by
  unfold writeZero; split <;> rfl

lemma writeZero_wHead (cap : Nat) (s : PipeState) : (writeZero cap s).wHead = s.wHead := by
  unfold writeZero; split <;> rfl

lemma writeZero_closed (cap : Nat) (s : PipeState) : (writeZero cap s).closed = s.closed := by
  unfold writeZero; split <;> rfl

lemma writeZero_zu_ge (cap : Nat) (s : PipeState) :
    s.zeroedUntil ≤ (writeZero cap s).zeroedUntil := by
  unfold writeZero; split <;> simp <;> omega

lemma writeZero_zu_covers (cap : Nat) (s : PipeState) :
    realIndex cap s.tail + writeChunk cap s ≤ (writeZero cap s).zeroedUntil := by
  unfold writeZero; split
  · simp
  · omega

lemma writeZero_zu_cases (cap : Nat) (s : PipeState) :
    (writeZero cap s).zeroedUntil = s.zeroedUntil ∨
    (writeZero cap s).zeroedUntil = realIndex cap s.tail + writeChunk cap s := by
  unfold writeZero; split
  · exact Or.inr rfl
  · exact Or.inl rfl

lemma writeZero_buffer_out {cap : Nat} {s : PipeState} {i : Nat}
    (hzu : realIndex cap s.tail ≤ s.zeroedUntil)
    (h : i < realIndex cap s.tail ∨ realIndex cap s.tail + writeChunk cap s ≤ i) :
    (writeZero cap s).buffer i = s.buffer i := by
  unfold writeZero; split
  · exact zeroRange_out (by omega)
  · rfl

lemma writeIter_snd (cap : Nat) (s : PipeState) (src : List Nat) :
    (writeIter cap s src).2 = min (writeChunk cap s) src.length := by
  unfold writeIter
  split
  · dsimp only; omega
  · rfl

lemma writeIter_head (cap : Nat) (s : PipeState) (src : List Nat) :
    (writeIter cap s src).1.head = s.head := by
  unfold writeIter
  split <;> (dsimp only; exact writeZero_head cap s)

lemma writeIter_rTail (cap : Nat) (s : PipeState) (src : List Nat) :
    (writeIter cap s src).1.rTail = s.rTail := by
  unfold writeIter
  split <;> (dsimp only; exact writeZero_rTail cap s)

lemma writeIter_wHead (cap : Nat) (s : PipeState) (src : List Nat) :
    (writeIter cap s src).1.wHead = s.wHead := by
  unfold writeIter
  split <;> (dsimp only; exact writeZero_wHead cap s)

lemma writeIter_closed (cap : Nat) (s : PipeState) (src : List Nat) :
    (writeIter cap s src).1.closed = s.closed := by
  unfold writeIter
  split <;> (dsimp only; exact writeZero_closed cap s)

lemma writeIter_zu (cap : Nat) (s : PipeState) (src : List Nat) :
    (writeIter cap s src).1.zeroedUntil = (writeZero cap s).zeroedUntil := by
  unfold writeIter
  split <;> dsimp only

lemma writeIter_buffer (cap : Nat) (s : PipeState) (src : List Nat) :
    (writeIter cap s src).1.buffer
      = writeRange (writeZero cap s).buffer (realIndex cap s.tail)
          (src.take (min (writeChunk cap s) src.length)) := by
  unfold writeIter
  split <;> dsimp only

lemma writeIter_tail_zero {cap : Nat} {s : PipeState} {src : List Nat}
    (h0 : min (writeChunk cap s) src.length = 0) :
    (writeIter cap s src).1.tail = s.tail := by
  unfold writeIter
  rw [if_pos h0]
  dsimp only
  exact writeZero_tail cap s

lemma writeIter_tail_pos {cap : Nat} {s : PipeState} {src : List Nat}
    (h0 : ¬ min (writeChunk cap s) src.length = 0) :
    (writeIter cap s src).1.tail = advance cap s.tail (min (writeChunk cap s) src.length) := by
  unfold writeIter
  rw [if_neg h0]

lemma writeIter_spec (cap : Nat) (s : PipeState) (src : List Nat) (hinv : PipeInv cap s) :
    (writeIter cap s src).2 ≤ src.length ∧
    (writeIter cap s src).1.head = s.head ∧
    (writeIter cap s src).1.rTail = s.rTail ∧
    (writeIter cap s src).1.wHead = s.wHead ∧
    (writeIter cap s src).1.closed = s.closed ∧
    dist cap s.head (writeIter cap s src).1.tail
      = dist cap s.head s.tail + (writeIter cap s src).2 ∧
    dist cap s.wHead (writeIter cap s src).1.tail
      = dist cap s.wHead s.tail + (writeIter cap s src).2 ∧
    PipeInv cap (writeIter cap s src).1 ∧
    ringSeg cap (writeIter cap s src).1.buffer s.head
        (dist cap s.head s.tail + (writeIter cap s src).2)
      = ringSeg cap s.buffer s.head (dist cap s.head s.tail)
        ++ src.take (writeIter cap s src).2 ∧
    ((writeIter cap s src).2 = 0 → (writeIter cap s src).1.tail = s.tail) ∧
    ((writeIter cap s src).2 = 0 → min (writeChunk cap s) src.length = 0) := by
  have hc := hinv.capPos
  have hh := hinv.headLt
  have ht := hinv.tailLt
  have hn1 : writeChunk cap s ≤ cap - dist cap s.wHead s.tail :=
    le_trans (min_le_left _ _) (min_le_right _ _)
  have hn2 : writeChunk cap s ≤ cap - realIndex cap s.tail := min_le_right _ _
  have hDfree : dist cap s.head s.tail + writeChunk cap s ≤ cap := by
    have h1 := hinv.distLeW
    have h2 := hinv.wHeadDistLe
    omega
  have hWfree : dist cap s.wHead s.tail + writeChunk cap s ≤ cap := by
    have := hinv.wHeadDistLe
    omega
  have htr : realIndex cap s.tail < cap := realIndex_lt ht
  have htmod : realIndex cap s.tail = s.tail % cap := realIndex_eq_mod ht
  have hn2len : min (writeChunk cap s) src.length ≤ writeChunk cap s := min_le_left _ _
  have hn2src : min (writeChunk cap s) src.length ≤ src.length := min_le_right _ _
  have htakelen : (src.take (min (writeChunk cap s) src.length)).length
      = min (writeChunk cap s) src.length := by
    rw [List.length_take]; omega
  -- the queued bytes are untouched by the zeroing and by the source copy
  have hpres : ∀ k, k < dist cap s.head s.tail →
      writeRange (writeZero cap s).buffer (realIndex cap s.tail)
        (src.take (min (writeChunk cap s) src.length)) ((s.head + k) % cap)
      = s.buffer ((s.head + k) % cap) := by
    intro k hk
    have hwin := unread_out_of_window (writeChunk cap s) hh ht (by omega) (by omega) hk
    rw [← htmod] at hwin
    rw [writeRange_out (by omega), writeZero_buffer_out hinv.zeroedGe (by omega)]
  have hsegOld :
      ringSeg cap (writeRange (writeZero cap s).buffer (realIndex cap s.tail)
          (src.take (min (writeChunk cap s) src.length))) s.head (dist cap s.head s.tail)
      = ringSeg cap s.buffer s.head (dist cap s.head s.tail) :=
    ringSeg_ext fun k hk => hpres k hk
  have htailmod : s.tail % cap = realIndex cap s.tail % cap := by
    rw [← htmod, Nat.mod_eq_of_lt htr]
  have hsegNew :
      ringSeg cap (writeRange (writeZero cap s).buffer (realIndex cap s.tail)
          (src.take (min (writeChunk cap s) src.length)))
        (s.head + dist cap s.head s.tail) (min (writeChunk cap s) src.length)
      = src.take (min (writeChunk cap s) src.length) := by
    unfold ringSeg
    have hstep : ∀ j, j < min (writeChunk cap s) src.length →
        writeRange (writeZero cap s).buffer (realIndex cap s.tail)
          (src.take (min (writeChunk cap s) src.length))
          ((s.head + dist cap s.head s.tail + j) % cap)
        = (src.take (min (writeChunk cap s) src.length)).getD j 0 := by
      intro j hj
      have h1 : (s.head + dist cap s.head s.tail + j) % cap
          = (realIndex cap s.tail + j) % cap := by
        rw [mod_add_right_congr j (mod_dist hh ht).symm, mod_add_right_congr j htailmod]
      have h2 : (realIndex cap s.tail + j) % cap = realIndex cap s.tail + j :=
        Nat.mod_eq_of_lt (by omega)
      rw [h1, h2, writeRange_in (by omega) (by rw [htakelen]; omega)]
      have h3 : realIndex cap s.tail + j - realIndex cap s.tail = j := by omega
      rw [h3]
    calc (List.range (min (writeChunk cap s) src.length)).map
          (fun k => writeRange (writeZero cap s).buffer (realIndex cap s.tail)
            (src.take (min (writeChunk cap s) src.length))
            ((s.head + dist cap s.head s.tail + k) % cap))
        = (List.range (min (writeChunk cap s) src.length)).map
            (fun j => (src.take (min (writeChunk cap s) src.length)).getD j 0) := by
          apply List.map_congr_left
          intro k hk
          exact hstep k (List.mem_range.mp hk)
      _ = src.take (min (writeChunk cap s) src.length) := by
          rw [range_map_getD _ _ (by rw [htakelen])]
          exact List.take_of_length_le (by rw [htakelen])
  have hseg :
      ringSeg cap (writeRange (writeZero cap s).buffer (realIndex cap s.tail)
          (src.take (min (writeChunk cap s) src.length))) s.head
        (dist cap s.head s.tail + min (writeChunk cap s) src.length)
      = ringSeg cap s.buffer s.head (dist cap s.head s.tail)
        ++ src.take (min (writeChunk cap s) src.length) := by
    rw [ringSeg_split, hsegOld, hsegNew]
  have hzuLe : (writeZero cap s).zeroedUntil ≤ cap := by
    rcases writeZero_zu_cases cap s with h | h <;> rw [h]
    · exact hinv.zeroedLe
    · omega
  have hsnd := writeIter_snd cap s src
  have hdistH : dist cap s.head (writeIter cap s src).1.tail
      = dist cap s.head s.tail + (writeIter cap s src).2 := by
    by_cases h0 : min (writeChunk cap s) src.length = 0
    · rw [writeIter_tail_zero h0, hsnd, h0]
      omega
    · rw [writeIter_tail_pos h0, hsnd]
      exact dist_advance_right hh ht (head_add_le ht (by omega)) (by omega)
  have hdistW : dist cap s.wHead (writeIter cap s src).1.tail
      = dist cap s.wHead s.tail + (writeIter cap s src).2 := by
    by_cases h0 : min (writeChunk cap s) src.length = 0
    · rw [writeIter_tail_zero h0, hsnd, h0]
      omega
    · rw [writeIter_tail_pos h0, hsnd]
      exact dist_advance_right hinv.wHeadLt ht (head_add_le ht (by omega)) (by omega)
  have htailLt : (writeIter cap s src).1.tail < 2 * cap := by
    by_cases h0 : min (writeChunk cap s) src.length = 0
    · rw [writeIter_tail_zero h0]; exact ht
    · rw [writeIter_tail_pos h0]; exact advance_lt hc _ _
  have hzuGe2 : realIndex cap (writeIter cap s src).1.tail
      ≤ (writeIter cap s src).1.zeroedUntil := by
    rw [writeIter_zu]
    have hcov := writeZero_zu_covers cap s
    by_cases h0 : min (writeChunk cap s) src.length = 0
    · rw [writeIter_tail_zero h0]
      exact le_trans hinv.zeroedGe (writeZero_zu_ge cap s)
    · rw [writeIter_tail_pos h0]
      have htn2 : s.tail + min (writeChunk cap s) src.length ≤ 2 * cap :=
        head_add_le ht (by omega)
      have hri : realIndex cap (advance cap s.tail (min (writeChunk cap s) src.length))
          = (realIndex cap s.tail + min (writeChunk cap s) src.length) % cap := by
        rw [realIndex_eq_mod (advance_lt hc _ _), advance_eq_mod htn2, mod_cap_of_two_cap,
          mod_add_right_congr _ htailmod]
      rw [hri]
      by_cases hlt : realIndex cap s.tail + min (writeChunk cap s) src.length < cap
      · rw [Nat.mod_eq_of_lt hlt]; omega
      · have hq : realIndex cap s.tail + min (writeChunk cap s) src.length = cap := by omega
        rw [hq, Nat.mod_self]; omega
  refine ⟨by rw [hsnd]; exact hn2src, writeIter_head cap s src, writeIter_rTail cap s src,
    writeIter_wHead cap s src, writeIter_closed cap s src, hdistH, hdistW, ?_, ?_, ?_, ?_⟩
  · exact { capPos := hc
            headLt := by rw [writeIter_head]; exact hh
            tailLt := htailLt
            rTailLt := by rw [writeIter_rTail]; exact hinv.rTailLt
            wHeadLt := by rw [writeIter_wHead]; exact hinv.wHeadLt
            distLe := by
              rw [writeIter_head, hdistH, hsnd]
              omega
            rTailLe := by
              rw [writeIter_head, writeIter_rTail, hdistH]
              have := hinv.rTailLe
              omega
            wHeadDistLe := by
              rw [writeIter_wHead, hdistW, hsnd]
              omega
            distLeW := by
              rw [writeIter_head, writeIter_wHead, hdistH, hdistW]
              have := hinv.distLeW
              omega
            zeroedGe := hzuGe2
            zeroedLe := by rw [writeIter_zu]; exact hzuLe }
  · rw [writeIter_buffer, hsnd]
    exact hseg
  · intro hz
    rw [hsnd] at hz
    exact writeIter_tail_zero hz
  · intro hz
    rw [hsnd] at hz
    exact hz

/-! ### The transfer loops -/

lemma readLoop_spec (cap : Nat) : ∀ (fuel destCap : Nat), destCap ≤ fuel →
    ∀ (s : PipeState) (acc : List Nat), PipeInv cap s →
    ∃ m,
      (readLoop cap s destCap acc).2 = acc ++ ringSeg cap s.buffer s.head m ∧
      m ≤ destCap ∧ m ≤ dist cap s.head s.rTail ∧
      (readLoop cap s destCap acc).1.tail = s.tail ∧
      (readLoop cap s destCap acc).1.rTail = s.rTail ∧
      (readLoop cap s destCap acc).1.wHead = s.wHead ∧
      (readLoop cap s destCap acc).1.buffer = s.buffer ∧
      (readLoop cap s destCap acc).1.zeroedUntil = s.zeroedUntil ∧
      (readLoop cap s destCap acc).1.closed = s.closed ∧
      dist cap (readLoop cap s destCap acc).1.head s.tail + m = dist cap s.head s.tail ∧
      (readLoop cap s destCap acc).1.head % cap = (s.head + m) % cap ∧
      PipeInv cap (readLoop cap s destCap acc).1 ∧
      (m = 0 → min (readChunk cap s) destCap = 0) := by
  intro fuel
  induction fuel with
  | zero =>
    intro destCap hf s acc hinv
    have hlen := readIter_len_le cap s destCap
    have hl : ((readIter cap s destCap).2).length = 0 := by omega
    obtain ⟨_, _, _, _, _, _, _, _, _, _, _, _, _, heq, hmin⟩ :=
      readIter_spec cap s destCap hinv
    rw [readLoop, dif_pos hl, heq hl]
    exact ⟨0, by rw [ringSeg_zero, List.append_nil], by omega, by omega, rfl, rfl, rfl, rfl,
      rfl, rfl, by omega, by simp, hinv, fun _ => hmin hl⟩
  | succ f ih =>
    intro destCap hf s acc hinv
    obtain ⟨h1, h2, h3, h4, h5, h6, h7, h8, h9, h10, h11, h12, h13, heq, hmin⟩ :=
      readIter_spec cap s destCap hinv
    by_cases hl : ((readIter cap s destCap).2).length = 0
    · rw [readLoop, dif_pos hl, heq hl]
      exact ⟨0, by rw [ringSeg_zero, List.append_nil], by omega, by omega, rfl, rfl, rfl, rfl,
        rfl, rfl, by omega, by simp, hinv, fun _ => hmin hl⟩
    · rw [readLoop, dif_neg hl]
      obtain ⟨m2, g1, g2, g3, g4, g5, g6, g7, g8, g9, g10, g11, g12, g13⟩ :=
        ih (destCap - ((readIter cap s destCap).2).length) (by omega)
          (readIter cap s destCap).1 (acc ++ (readIter cap s destCap).2) h13
      refine ⟨((readIter cap s destCap).2).length + m2, ?_, by omega, ?_, ?_, ?_, ?_, ?_,
        ?_, ?_, ?_, ?_, g12, ?_⟩
      · rw [g1, h9, h6]
        have hcongr : ringSeg cap s.buffer (readIter cap s destCap).1.head m2
            = ringSeg cap s.buffer (s.head + ((readIter cap s destCap).2).length) m2 :=
          ringSeg_congr s.buffer m2 h12
        rw [hcongr, ringSeg_split, List.append_assoc, ringSeg_length]
      · have : m2 ≤ dist cap (readIter cap s destCap).1.head (readIter cap s destCap).1.rTail := g3
        rw [h4] at this
        omega
      · rw [g4, h3]
      · rw [g5, h4]
      · rw [g6, h5]
      · rw [g7, h6]
      · rw [g8, h7]
      · rw [g9, h8]
      · rw [h3] at g10
        omega
      · rw [g11, mod_add_right_congr m2 h12, Nat.add_assoc]
      · intro hz
        omega

lemma writeLoop_spec (cap : Nat) : ∀ (fuel : Nat) (src : List Nat), src.length ≤ fuel →
    ∀ (s : PipeState) (count : Nat), PipeInv cap s →
    ∃ m,
      (writeLoop cap s src count).2 = count + m ∧
      m ≤ src.length ∧
      (writeLoop cap s src count).1.head = s.head ∧
      (writeLoop cap s src count).1.rTail = s.rTail ∧
      (writeLoop cap s src count).1.wHead = s.wHead ∧
      (writeLoop cap s src count).1.closed = s.closed ∧
      dist cap s.head (writeLoop cap s src count).1.tail = dist cap s.head s.tail + m ∧
      PipeInv cap (writeLoop cap s src count).1 ∧
      ringSeg cap (writeLoop cap s src count).1.buffer s.head (dist cap s.head s.tail + m)
        = ringSeg cap s.buffer s.head (dist cap s.head s.tail) ++ src.take m ∧
      (m = 0 → (writeLoop cap s src count).1.tail = s.tail) := by
  intro fuel
  induction fuel with
  | zero =>
    intro src hf s count hinv
    have hlen := writeIter_cnt_le cap s src
    have hl : (writeIter cap s src).2 = 0 := by omega
    obtain ⟨w1, w2, w3, w4, w5, w6, w7, w8, w9, w10, w11⟩ := writeIter_spec cap s src hinv
    rw [writeLoop, dif_pos hl]
    dsimp only
    rw [hl] at w6 w9
    exact ⟨0, by omega, by omega, w2, w3, w4, w5, by rw [w6], w8, by simpa using w9,
      fun _ => w10 hl⟩
  | succ f ih =>
    intro src hf s count hinv
    obtain ⟨w1, w2, w3, w4, w5, w6, w7, w8, w9, w10, w11⟩ := writeIter_spec cap s src hinv
    by_cases hl : (writeIter cap s src).2 = 0
    · rw [writeLoop, dif_pos hl]
      dsimp only
      rw [hl] at w6 w9
      exact ⟨0, by omega, by omega, w2, w3, w4, w5, by rw [w6], w8, by simpa using w9,
        fun _ => w10 hl⟩
    · rw [writeLoop, dif_neg hl]
      have hdroplen := List.length_drop (writeIter cap s src).2 src
      obtain ⟨m2, g1, g2, g3, g4, g5, g6, g7, g8, g9, g10⟩ :=
        ih (List.drop (writeIter cap s src).2 src) (by omega)
          (writeIter cap s src).1 (count + (writeIter cap s src).2) w8
      refine ⟨(writeIter cap s src).2 + m2, ?_, by omega, ?_, ?_, ?_, ?_, ?_, g8, ?_, ?_⟩
      · rw [g1, Nat.add_assoc]
      · rw [g3, w2]
      · rw [g4, w3]
      · rw [g5, w4]
      · rw [g6, w5]
      · rw [w2] at g7
        rw [g7, w6]
        omega
      · rw [w2] at g9
        rw [w6] at g9
        have hta : dist cap s.head s.tail + ((writeIter cap s src).2 + m2)
            = dist cap s.head s.tail + (writeIter cap s src).2 + m2 := by omega
        rw [hta, g9, w9, List.append_assoc, List.take_add]
      · intro hz
        omega

/-! ### Whole poll calls -/

lemma pollRead_spec (cap : Nat) (s : PipeState) (destCap : Nat) (hinv : PipeInv cap s) :
    ∃ m,
      pollReadBytes cap s destCap = ringSeg cap s.buffer s.head m ∧
      m ≤ dist cap s.head s.tail ∧ m ≤ destCap ∧
      (pollReadSt cap s destCap).tail = s.tail ∧
      (pollReadSt cap s destCap).buffer = s.buffer ∧
      (pollReadSt cap s destCap).zeroedUntil = s.zeroedUntil ∧
      (pollReadSt cap s destCap).wHead = s.wHead ∧
      (pollReadSt cap s destCap).closed = s.closed ∧
      PipeInv cap (pollReadSt cap s destCap) ∧
      dist cap (pollReadSt cap s destCap).head s.tail + m = dist cap s.head s.tail ∧
      (pollReadSt cap s destCap).head % cap = (s.head + m) % cap ∧
      (m = 0 → dist cap s.head s.tail = 0 ∨ destCap = 0) ∧
      (s.closed = true → (pollRead cap s destCap).2 = Poll.ready (pollReadBytes cap s destCap)) := by
  have hc := hinv.capPos
  have hh := hinv.headLt
  unfold pollReadSt pollReadBytes pollRead
  by_cases hA : dist cap s.head s.rTail = 0
  · rw [if_pos hA]
    by_cases hB : dist cap s.head s.tail = 0
    · rw [if_pos hB]
      have hinv1 : PipeInv cap { s with rTail := s.tail, rWaker := true } :=
        { capPos := hc
          headLt := hh
          tailLt := hinv.tailLt
          rTailLt := hinv.tailLt
          wHeadLt := hinv.wHeadLt
          distLe := hinv.distLe
          rTailLe := le_refl _
          wHeadDistLe := hinv.wHeadDistLe
          distLeW := hinv.distLeW
          zeroedGe := hinv.zeroedGe
          zeroedLe := hinv.zeroedLe }
      by_cases hcl : s.closed = true
      · rw [if_pos hcl]
        exact ⟨0, by rw [ringSeg_zero], by omega, by omega, rfl, rfl, rfl, rfl, rfl, hinv1,
          by simp, by simp, fun _ => Or.inl hB, fun _ => rfl⟩
      · rw [if_neg hcl]
        exact ⟨0, by rw [ringSeg_zero], by omega, by omega, rfl, rfl, rfl, rfl, rfl, hinv1,
          by simp, by simp, fun _ => Or.inl hB, fun h => absurd h hcl⟩
    · rw [if_neg hB]
      have hinv1 : PipeInv cap { s with rTail := s.tail, rWaker := false } :=
        { capPos := hc
          headLt := hh
          tailLt := hinv.tailLt
          rTailLt := hinv.tailLt
          wHeadLt := hinv.wHeadLt
          distLe := hinv.distLe
          rTailLe := le_refl _
          wHeadDistLe := hinv.wHeadDistLe
          distLeW := hinv.distLeW
          zeroedGe := hinv.zeroedGe
          zeroedLe := hinv.zeroedLe }
      obtain ⟨m, g1, g2, g3, g4, g5, g6, g7, g8, g9, g10, g11, g12, g13⟩ :=
        readLoop_spec cap destCap destCap (le_refl _)
          { s with rTail := s.tail, rWaker := false } [] hinv1
      refine ⟨m, ?_, ?_, g2, g4, g7, g8, g6, g9, g12, g10, g11, ?_, fun _ => rfl⟩
      · dsimp only
        rw [g1, List.nil_append]
      · exact le_trans g3 (le_refl _)
      · intro hz
        have hmin := g13 hz
        have hpos : 0 < readChunk cap { s with rTail := s.tail, rWaker := false } := by
          unfold readChunk
          dsimp only
          rw [lt_min_iff, lt_min_iff]
          have := realIndex_lt hh
          refine ⟨⟨by omega, by omega⟩, by omega⟩
        right
        omega
  · rw [if_neg hA]
    have hinv1 : PipeInv cap { s with rWaker := false } :=
      { capPos := hc
        headLt := hh
        tailLt := hinv.tailLt
        rTailLt := hinv.rTailLt
        wHeadLt := hinv.wHeadLt
        distLe := hinv.distLe
        rTailLe := hinv.rTailLe
        wHeadDistLe := hinv.wHeadDistLe
        distLeW := hinv.distLeW
        zeroedGe := hinv.zeroedGe
        zeroedLe := hinv.zeroedLe }
    obtain ⟨m, g1, g2, g3, g4, g5, g6, g7, g8, g9, g10, g11, g12, g13⟩ :=
      readLoop_spec cap destCap destCap (le_refl _) { s with rWaker := false } [] hinv1
    refine ⟨m, ?_, ?_, g2, g4, g7, g8, g6, g9, g12, g10, g11, ?_, fun _ => rfl⟩
    · dsimp only
      rw [g1, List.nil_append]
    · exact le_trans g3 hinv.rTailLe
    · intro hz
      have hmin := g13 hz
      have hpos : 0 < readChunk cap { s with rWaker := false } := by
        unfold readChunk
        dsimp only
        rw [lt_min_iff, lt_min_iff]
        have := realIndex_lt hh
        refine ⟨⟨by omega, by omega⟩, by omega⟩
      right
      omega

lemma pollWrite_spec (cap : Nat) (s : PipeState) (src : List Nat) (hinv : PipeInv cap s) :
    ∃ m,
      pollWriteCount cap s src = m ∧ m ≤ src.length ∧
      (pollWriteSt cap s src).head = s.head ∧
      (pollWriteSt cap s src).rTail = s.rTail ∧
      (pollWriteSt cap s src).closed = s.closed ∧
      PipeInv cap (pollWriteSt cap s src) ∧
      dist cap s.head (pollWriteSt cap s src).tail = dist cap s.head s.tail + m ∧
      ringSeg cap (pollWriteSt cap s src).buffer s.head (dist cap s.head s.tail + m)
        = ringSeg cap s.buffer s.head (dist cap s.head s.tail) ++ src.take m ∧
      (s.closed = true → pollWrite cap s src = (s, Poll.ready 0)) := by
  have hc := hinv.capPos
  have hh := hinv.headLt
  unfold pollWriteSt pollWriteCount pollWrite
  by_cases hcl : s.closed = true
  · rw [if_pos hcl]
    exact ⟨0, rfl, by omega, rfl, rfl, rfl, hinv, by simp, by simp, fun _ => rfl⟩
  · rw [if_neg hcl]
    by_cases hA : dist cap s.wHead s.tail = cap
    · rw [if_pos hA]
      by_cases hB : dist cap s.head s.tail = cap
      · rw [if_pos hB]
        have hcl2 : ¬ ({ s with wHead := s.head, wWaker := true } : PipeState).closed = true := hcl
        rw [if_neg hcl2]
        have hinv1 : PipeInv cap { s with wHead := s.head, wWaker := true } :=
          { capPos := hc
            headLt := hh
            tailLt := hinv.tailLt
            rTailLt := hinv.rTailLt
            wHeadLt := hh
            distLe := hinv.distLe
            rTailLe := hinv.rTailLe
            wHeadDistLe := hinv.distLe
            distLeW := le_refl _
            zeroedGe := hinv.zeroedGe
            zeroedLe := hinv.zeroedLe }
        exact ⟨0, rfl, by omega, rfl, rfl, rfl, hinv1, by simp, by simp,
          fun h => absurd h hcl⟩
      · rw [if_neg hB]
        have hinv1 : PipeInv cap { s with wHead := s.head, wWaker := false } :=
          { capPos := hc
            headLt := hh
            tailLt := hinv.tailLt
            rTailLt := hinv.rTailLt
            wHeadLt := hh
            distLe := hinv.distLe
            rTailLe := hinv.rTailLe
            wHeadDistLe := hinv.distLe
            distLeW := le_refl _
            zeroedGe := hinv.zeroedGe
            zeroedLe := hinv.zeroedLe }
        obtain ⟨m, g1, g2, g3, g4, g5, g6, g7, g8, g9, g10⟩ :=
          writeLoop_spec cap src.length src (le_refl _)
            { s with wHead := s.head, wWaker := false } 0 hinv1
        refine ⟨m, ?_, g2, g3, g4, g6, g8, g7, g9, fun h => absurd h hcl⟩
        dsimp only
        rw [g1, Nat.zero_add]
    · rw [if_neg hA]
      have hinv1 : PipeInv cap { s with wWaker := false } :=
        { capPos := hc
          headLt := hh
          tailLt := hinv.tailLt
          rTailLt := hinv.rTailLt
          wHeadLt := hinv.wHeadLt
          distLe := hinv.distLe
          rTailLe := hinv.rTailLe
          wHeadDistLe := hinv.wHeadDistLe
          distLeW := hinv.distLeW
          zeroedGe := hinv.zeroedGe
          zeroedLe := hinv.zeroedLe }
      obtain ⟨m, g1, g2, g3, g4, g5, g6, g7, g8, g9, g10⟩ :=
        writeLoop_spec cap src.length src (le_refl _) { s with wWaker := false } 0 hinv1
      refine ⟨m, ?_, g2, g3, g4, g6, g8, g7, g9, fun h => absurd h hcl⟩
      dsimp only
      rw [g1, Nat.zero_add]

/-! ### The reachability invariant: byte fidelity for every interleaving -/

lemma pipeStep_inv {cap : Nat} {c c2 : Config} (h : PipeStep cap c c2)
    (hinv : ConfigInv cap c) : ConfigInv cap c2 := by
  obtain ⟨hp, hfid⟩ := hinv
  cases h with
  | read destCap =>
    obtain ⟨m, g1, g2, g3, g4, g5, g6, g7, g8, g9, g10, g11, g12, g13⟩ :=
      pollRead_spec cap c.pipe destCap hp
    refine ⟨g9, ?_⟩
    dsimp only
    have hsplit : ringSeg cap c.pipe.buffer c.pipe.head (dist cap c.pipe.head c.pipe.tail)
        = ringSeg cap c.pipe.buffer c.pipe.head m
          ++ ringSeg cap c.pipe.buffer (c.pipe.head + m)
            (dist cap c.pipe.head c.pipe.tail - m) := by
      have hm : dist cap c.pipe.head c.pipe.tail
          = m + (dist cap c.pipe.head c.pipe.tail - m) := by omega
      rw [hm, ringSeg_split]
      have hm2 : m + (dist cap c.pipe.head c.pipe.tail - m) - m
          = dist cap c.pipe.head c.pipe.tail - m := by omega
      rw [hm2]
    have hcongr : ringSeg cap c.pipe.buffer ((pollReadSt cap c.pipe destCap).head)
          (dist cap c.pipe.head c.pipe.tail - m)
        = ringSeg cap c.pipe.buffer (c.pipe.head + m)
          (dist cap c.pipe.head c.pipe.tail - m) :=
      ringSeg_congr _ _ g11
    rw [hfid, hsplit, g1, g4, g5]
    have hdist : dist cap (pollReadSt cap c.pipe destCap).head c.pipe.tail
        = dist cap c.pipe.head c.pipe.tail - m := by omega
    rw [hdist, hcongr, List.append_assoc]
  | write src =>
    obtain ⟨m, g1, g2, g3, g4, g5, g6, g7, g8, g9⟩ := pollWrite_spec cap c.pipe src hp
    refine ⟨g6, ?_⟩
    dsimp only
    rw [g1, g3, g7, g8, hfid, List.append_assoc]
  | dropR =>
    exact ⟨{ capPos := hp.capPos, headLt := hp.headLt, tailLt := hp.tailLt,
             rTailLt := hp.rTailLt, wHeadLt := hp.wHeadLt, distLe := hp.distLe,
             rTailLe := hp.rTailLe, wHeadDistLe := hp.wHeadDistLe,
             distLeW := hp.distLeW, zeroedGe := hp.zeroedGe, zeroedLe := hp.zeroedLe },
           hfid⟩
  | dropW =>
    exact ⟨{ capPos := hp.capPos, headLt := hp.headLt, tailLt := hp.tailLt,
             rTailLt := hp.rTailLt, wHeadLt := hp.wHeadLt, distLe := hp.distLe,
             rTailLe := hp.rTailLe, wHeadDistLe := hp.wHeadDistLe,
             distLeW := hp.distLeW, zeroedGe := hp.zeroedGe, zeroedLe := hp.zeroedLe },
           hfid⟩

lemma pipeReach_inv {cap : Nat} {c : Config} (h : PipeReach cap c) : ConfigInv cap c := by
  induction h with
  | init buf hc =>
    have hd0 : dist cap 0 0 = 0 := by unfold dist; simp
    refine ⟨?_, ?_⟩
    · exact { capPos := hc
              headLt := by show 0 < 2 * cap; omega
              tailLt := by show 0 < 2 * cap; omega
              rTailLt := by show 0 < 2 * cap; omega
              wHeadLt := by show 0 < 2 * cap; omega
              distLe := by show dist cap 0 0 ≤ cap; omega
              rTailLe := le_refl _
              wHeadDistLe := by show dist cap 0 0 ≤ cap; omega
              distLeW := le_refl _
              zeroedGe := by show realIndex cap 0 ≤ 0; unfold realIndex; split <;> omega
              zeroedLe := by show (0 : Nat) ≤ cap; omega }
    · show ([] : List Nat) = [] ++ ringSeg cap buf 0 (dist cap 0 0)
      rw [hd0, ringSeg_zero]
      rfl
  | step _ hstep ih => exact pipeStep_inv hstep ih

lemma growPool_eq (st : ExecState) : growPool st =
    if st.queue > st.idleCount * 5 ∧ st.threadCount < 500 then
      growPool { st with idleCount := st.idleCount + 1, threadCount := st.threadCount + 1,
                         freshCount := st.freshCount + 1 }
    else st := by
  unfold growPool
  cases h500 : 500 - st.threadCount with
  | zero =>
    rw [growPoolAux]
    split
    · omega
    · rfl
  | succ f =>
    rw [growPoolAux]
    split
    · congr 1
      dsimp only
      omega
    · rfl

lemma growPoolAux_inv : ∀ (fuel : Nat) (st : ExecState), ExecInv st →
    ExecInv (growPoolAux fuel st) := by
  intro fuel
  induction fuel with
  | zero => intro st h; exact h
  | succ f ih =>
    intro st h
    have h1 := h.threadEq
    have h2 := h.idleEq
    have h3 := h.threadLe
    rw [growPoolAux]
    by_cases hg : st.queue > st.idleCount * 5 ∧ st.threadCount < 500
    · rw [if_pos hg]
      exact ih _ { threadEq := by dsimp only; omega
                   idleEq := by dsimp only; omega
                   threadLe := by dsimp only; omega }
    · rw [if_neg hg]
      exact h

lemma growPool_inv {st : ExecState} (h : ExecInv st) : ExecInv (growPool st) :=
  growPoolAux_inv _ st h

lemma execReach_inv {st : ExecState} (h : ExecReach st) : ExecInv st := by
  induction h with
  | init => exact ⟨rfl, rfl, by show (0 : Nat) ≤ 500; omega⟩
  | step _ hstep ih =>
    cases hstep with
    | schedule =>
      apply growPool_inv
      exact { threadEq := by dsimp only; exact ih.threadEq
              idleEq := by dsimp only; exact ih.idleEq
              threadLe := by dsimp only; exact ih.threadLe }
    | acquireFresh hfr =>
      have h1 := ih.threadEq
      have h2 := ih.idleEq
      have h3 := ih.threadLe
      exact { threadEq := by dsimp only; omega
              idleEq := by dsimp only; omega
              threadLe := by dsimp only; omega }
    | resume hw =>
      have h1 := ih.threadEq
      have h2 := ih.idleEq
      have h3 := ih.threadLe
      exact { threadEq := by dsimp only; omega
              idleEq := by dsimp only; omega
              threadLe := by dsimp only; omega }
    | pop hr hq =>
      apply growPool_inv
      exact { threadEq := by dsimp only; exact ih.threadEq
              idleEq := by dsimp only; exact ih.idleEq
              threadLe := by dsimp only; exact ih.threadLe }
    | park hr hq =>
      have h1 := ih.threadEq
      have h2 := ih.idleEq
      have h3 := ih.threadLe
      exact { threadEq := by dsimp only; omega
              idleEq := by dsimp only; omega
              threadLe := by dsimp only; omega }
    | timeoutExit hw hq =>
      have h1 := ih.threadEq
      have h2 := ih.idleEq
      have h3 := ih.threadLe
      exact { threadEq := by dsimp only; omega
              idleEq := by dsimp only; omega
              threadLe := by dsimp only; omega }

lemma pollStop_ready_idle {s s2 : BState} {r : Option Nat}
    (h : pollStop s = (s2, Poll.ready r)) : ∃ b, s2 = BState.idle b := by
  cases s with
  | idle b => exact ⟨b, by injection h with h1 _; exact h1.symm⟩
  | task done =>
    cases done with
    | false => exact absurd (congrArg Prod.snd h) (by simp [pollStop])
    | true => exact ⟨true, by injection h with h1 _; exact h1.symm⟩
  | streaming rp done =>
    cases done with
    | false => exact absurd (congrArg Prod.snd h) (by simp [pollStop])
    | true => exact ⟨true, by injection h with h1 _; exact h1.symm⟩
  | reading rp st =>
    cases st with
    | pending => exact absurd (congrArg Prod.snd h) (by simp [pollStop])
    | ready e =>
      cases e with
      | none => exact ⟨true, by injection h with h1 _; exact h1.symm⟩
      | some e => exact ⟨true, by injection h with h1 _; exact h1.symm⟩
  | writing wp st =>
    cases st with
    | pending => exact absurd (congrArg Prod.snd h) (by simp [pollStop])
    | ready e =>
      cases e with
      | none => exact ⟨true, by injection h with h1 _; exact h1.symm⟩
      | some e => exact ⟨true, by injection h with h1 _; exact h1.symm⟩

/-! ### `closed` is never unset -/

lemma readIter_closed (cap : Nat) (s : PipeState) (destCap : Nat) :
    (readIter cap s destCap).1.closed = s.closed := by
  unfold readIter
  split <;> rfl

lemma readLoop_closed (cap : Nat) : ∀ (fuel destCap : Nat), destCap ≤ fuel →
    ∀ (s : PipeState) (acc : List Nat), (readLoop cap s destCap acc).1.closed = s.closed := by
  intro fuel
  induction fuel with
  | zero =>
    intro destCap hf s acc
    have hlen := readIter_len_le cap s destCap
    have hl : ((readIter cap s destCap).2).length = 0 := by omega
    rw [readLoop, dif_pos hl, readIter_closed]
  | succ f ih =>
    intro destCap hf s acc
    by_cases hl : ((readIter cap s destCap).2).length = 0
    · rw [readLoop, dif_pos hl, readIter_closed]
    · have hlen := readIter_len_le cap s destCap
      rw [readLoop, dif_neg hl, ih _ (by omega), readIter_closed]

lemma pollRead_closed (cap : Nat) (s : PipeState) (destCap : Nat) :
    (pollReadSt cap s destCap).closed = s.closed := by
  unfold pollReadSt pollRead
  by_cases hA : dist cap s.head s.rTail = 0
  · rw [if_pos hA]
    by_cases hB : dist cap s.head s.tail = 0
    · rw [if_pos hB]
      by_cases hcl : s.closed = true
      · rw [if_pos hcl]
      · rw [if_neg hcl]
    · rw [if_neg hB]
      exact readLoop_closed cap destCap destCap (le_refl _) _ []
  · rw [if_neg hA]
    exact readLoop_closed cap destCap destCap (le_refl _) _ []

lemma writeLoop_closed (cap : Nat) : ∀ (fuel : Nat) (src : List Nat), src.length ≤ fuel →
    ∀ (s : PipeState) (count : Nat), (writeLoop cap s src count).1.closed = s.closed := by
  intro fuel
  induction fuel with
  | zero =>
    intro src hf s count
    have hlen := writeIter_cnt_le cap s src
    have hl : (writeIter cap s src).2 = 0 := by omega
    rw [writeLoop, dif_pos hl, writeIter_closed]
  | succ f ih =>
    intro src hf s count
    by_cases hl : (writeIter cap s src).2 = 0
    · rw [writeLoop, dif_pos hl, writeIter_closed]
    · have hlen := writeIter_cnt_le cap s src
      have hdrop := List.length_drop (writeIter cap s src).2 src
      rw [writeLoop, dif_neg hl, ih _ (by omega), writeIter_closed]

lemma pollWrite_closed (cap : Nat) (s : PipeState) (src : List Nat) :
    (pollWriteSt cap s src).closed = s.closed := by
  unfold pollWriteSt pollWrite
  by_cases hcl : s.closed = true
  · rw [if_pos hcl]
  · rw [if_neg hcl]
    by_cases hA : dist cap s.wHead s.tail = cap
    · rw [if_pos hA]
      by_cases hB : dist cap s.head s.tail = cap
      · rw [if_pos hB]
        have hcl2 : ¬ ({ s with wHead := s.head, wWaker := true } : PipeState).closed = true := hcl
        rw [if_neg hcl2]
      · rw [if_neg hB]
        exact writeLoop_closed cap src.length src (le_refl _) _ 0
    · rw [if_neg hA]
      exact writeLoop_closed cap src.length src (le_refl _) _ 0

lemma pipeStep_closed {cap : Nat} {c c2 : Config} (h : PipeStep cap c c2)
    (hcl : c.pipe.closed = true) : c2.pipe.closed = true := by
  cases h with
  | read destCap => exact (pollRead_closed cap c.pipe destCap).trans hcl
  | write src => exact (pollWrite_closed cap c.pipe src).trans hcl
  | dropR => rfl
  | dropW => rfl

/-! ### The writing-side task always terminates through a flush -/

lemma writeTaskRun_ok (fr : Except Nat Unit) : ∀ (pre rest : List ReadEvent),
    (∀ ev, ev ∈ pre → ∃ n, ev = ReadEvent.okRead (n + 1)) →
    writeTaskRun fr (pre ++ ReadEvent.okRead 0 :: rest) = some (fr, 1) := by
  intro pre
  induction pre with
  | nil => intro rest _; rfl
  | cons ev tl ih =>
    intro rest hall
    obtain ⟨n, hn⟩ := hall ev (List.mem_cons_self _ _)
    subst hn
    exact ih rest fun e he => hall e (List.mem_cons_of_mem _ he)

lemma writeTaskRun_err (fr : Except Nat Unit) : ∀ (pre : List ReadEvent) (e : Nat)
    (rest : List ReadEvent),
    (∀ ev, ev ∈ pre → ∃ n, ev = ReadEvent.okRead (n + 1)) →
    writeTaskRun fr (pre ++ ReadEvent.errRead e :: rest) = some (Except.error e, 1) := by
  intro pre
  induction pre with
  | nil => intro e rest _; rfl
  | cons ev tl ih =>
    intro e rest hall
    obtain ⟨n, hn⟩ := hall ev (List.mem_cons_self _ _)
    subst hn
    exact ih e rest fun ev2 he => hall ev2 (List.mem_cons_of_mem _ he)

lemma writeTaskRun_characterize (fr : Except Nat Unit) : ∀ (events : List ReadEvent)
    (res : Except Nat Unit × Nat), writeTaskRun fr events = some res →
    res.2 = 1 ∧
    ((∃ pre rest, events = pre ++ ReadEvent.okRead 0 :: rest ∧
        (∀ ev, ev ∈ pre → ∃ n, ev = ReadEvent.okRead (n + 1)) ∧ res.1 = fr) ∨
     (∃ pre e rest, events = pre ++ ReadEvent.errRead e :: rest ∧
        (∀ ev, ev ∈ pre → ∃ n, ev = ReadEvent.okRead (n + 1)) ∧ res.1 = Except.error e)) := by
  intro events
  induction events with
  | nil => intro res h; exact absurd h (by simp [writeTaskRun])
  | cons ev rest ih =>
    intro res h
    cases ev with
    | okRead n =>
      cases n with
      | zero =>
        have hres : res = (fr, 1) := by
          have h2 : some (fr, 1) = some res := h
          injection h2 with h3
          exact h3.symm
        subst hres
        exact ⟨rfl, Or.inl ⟨[], rest, rfl, by simp, rfl⟩⟩
      | succ k =>
        obtain ⟨h1, hcase⟩ := ih res h
        refine ⟨h1, ?_⟩
        rcases hcase with ⟨pre, rest2, heq, hall, hres⟩ | ⟨pre, e, rest2, heq, hall, hres⟩
        · exact Or.inl ⟨ReadEvent.okRead (k + 1) :: pre, rest2, by rw [heq]; rfl, by
            intro ev2 hev2
            rcases List.mem_cons.mp hev2 with h | h
            · exact ⟨k, h⟩
            · exact hall ev2 h, hres⟩
        · exact Or.inr ⟨ReadEvent.okRead (k + 1) :: pre, e, rest2, by rw [heq]; rfl, by
            intro ev2 hev2
            rcases List.mem_cons.mp hev2 with h | h
            · exact ⟨k, h⟩
            · exact hall ev2 h, hres⟩
    | errRead e =>
      have hres : res = (Except.error e, 1) := by
        have h2 : some (Except.error e, 1) = some res := h
        injection h2 with h3
        exact h3.symm
      subst hres
      exact ⟨rfl, Or.inr ⟨[], e, rest, rfl, by simp, rfl⟩⟩

lemma cfg1_reach : PipeReach 1 cfg1 :=
  PipeReach.step (PipeReach.init (fun _ => 0) Nat.one_pos) (PipeStep.write cfg0 [7])

lemma pipeEx_inv : PipeInv 1 pipeEx := by
  constructor <;> decide

/-- The executor state right after the first `schedule` on a fresh executor:
`grow_pool` has accounted and spawned one thread that has not yet acquired
the mutex. -/
lemma execReach_example : ExecReach ⟨1, 1, 1, 1, 0, 0⟩ := by
  have h1 := ExecReach.step ExecReach.init (ExecStep.schedule ⟨0, 0, 0, 0, 0, 0⟩)
  have he : growPool { (⟨0, 0, 0, 0, 0, 0⟩ : ExecState) with
      queue := (⟨0, 0, 0, 0, 0, 0⟩ : ExecState).queue + 1 } = ⟨1, 1, 1, 1, 0, 0⟩ := by
    decide
  rw [he] at h1
  exact h1

/-! ### The claims -/

/-- C1.  Ring-buffer byte fidelity: for every capacity `cap > 0` and every
interleaving of `poll_write` calls (arbitrary byte sources), `poll_read`
calls (arbitrary destination capacities) and endpoint drops, the byte
history consumed from the sources equals the bytes delivered to the
destinations followed by the bytes still queued in the ring — so reads
deliver exactly the written bytes, in order, without loss or duplication,
and once the ring is drained (`head = tail`) the delivered bytes equal the
written bytes. -/
theorem c1_ring_byte_fidelity (cap : Nat) (c : Config) (h : PipeReach cap c) :
    c.written = c.readOut
      ++ ringSeg cap c.pipe.buffer c.pipe.head (dist cap c.pipe.head c.pipe.tail) ∧
    (c.pipe.head = c.pipe.tail → c.written = c.readOut) := by
  obtain ⟨hp, hfid⟩ := pipeReach_inv h
  refine ⟨hfid, fun heq => ?_⟩
  have hd0 : dist cap c.pipe.head c.pipe.tail = 0 :=
    (dist_eq_zero_iff hp.headLt hp.tailLt).mpr heq
  rw [hfid, hd0, ringSeg_zero, List.append_nil]

theorem c1_ring_byte_fidelity_witness :
    cfg1.written = cfg1.readOut
      ++ ringSeg 1 cfg1.pipe.buffer cfg1.pipe.head (dist 1 cfg1.pipe.head cfg1.pipe.tail) ∧
    (cfg1.pipe.head = cfg1.pipe.tail → cfg1.written = cfg1.readOut) :=
  c1_ring_byte_fidelity 1 cfg1 cfg1_reach

/-- C2.  Executor thread cap: every reachable executor state has
`thread_count ≤ 500`; `grow_pool` creates a thread only when
`queue.len() > idle_count * 5` and `thread_count < 500`; and under that
guard its loop body increments `idle_count` and `thread_count` before the
spawned worker exists (the recursion continues from the state with both
counters already incremented and one more fresh worker). -/
theorem c2_executor_thread_cap :
    (∀ st : ExecState, ExecReach st → st.threadCount ≤ 500) ∧
    (∀ st : ExecState, (growPool st).freshCount ≠ st.freshCount →
      st.queue > st.idleCount * 5 ∧ st.threadCount < 500) ∧
    (∀ st : ExecState, st.queue > st.idleCount * 5 → st.threadCount < 500 →
      growPool st = growPool { st with idleCount := st.idleCount + 1,
                                       threadCount := st.threadCount + 1,
                                       freshCount := st.freshCount + 1 }) := by
  refine ⟨fun st h => (execReach_inv h).threadLe, fun st hne => ?_, fun st h1 h2 => ?_⟩
  · by_cases hg : st.queue > st.idleCount * 5 ∧ st.threadCount < 500
    · exact hg
    · rw [growPool_eq, if_neg hg] at hne
      exact absurd rfl hne
  · rw [growPool_eq, if_pos ⟨h1, h2⟩]

theorem c2_executor_thread_cap_witness :
    (⟨1, 1, 1, 1, 0, 0⟩ : ExecState).threadCount ≤ 500 :=
  c2_executor_thread_cap.1 ⟨1, 1, 1, 1, 0, 0⟩ execReach_example

/-- C3.  In every reachable pipe configuration the indices stay in
`0..2*cap` and the circular distance `(tail - head) mod 2*cap` stays in
`[0, cap]`; `head = tail` holds exactly when the pipe is empty (the bytes
delivered equal the bytes written) and the distance equals `cap` exactly
when `cap` bytes are in flight (`written.length = readOut.length + cap`). -/
theorem c3_index_invariants (cap : Nat) (c : Config) (h : PipeReach cap c) :
    c.pipe.head < 2 * cap ∧ c.pipe.tail < 2 * cap ∧
    dist cap c.pipe.head c.pipe.tail ≤ cap ∧
    (c.pipe.head = c.pipe.tail ↔ c.written.length = c.readOut.length) ∧
    (dist cap c.pipe.head c.pipe.tail = cap
      ↔ c.written.length = c.readOut.length + cap) := by
  obtain ⟨hp, hfid⟩ := pipeReach_inv h
  have hlen : c.written.length
      = c.readOut.length + dist cap c.pipe.head c.pipe.tail := by
    rw [hfid, List.length_append, ringSeg_length]
  have hdz := dist_eq_zero_iff hp.headLt hp.tailLt
  refine ⟨hp.headLt, hp.tailLt, hp.distLe, ?_, ?_⟩
  · constructor
    · intro he
      have h0 := hdz.mpr he
      omega
    · intro hl
      exact hdz.mp (by omega)
  · constructor
    · intro hd
      omega
    · intro hl
      omega

theorem c3_index_invariants_witness :
    cfg1.pipe.head < 2 * 1 ∧ cfg1.pipe.tail < 2 * 1 ∧
    dist 1 cfg1.pipe.head cfg1.pipe.tail ≤ 1 ∧
    (cfg1.pipe.head = cfg1.pipe.tail ↔ cfg1.written.length = cfg1.readOut.length) ∧
    (dist 1 cfg1.pipe.head cfg1.pipe.tail = 1
      ↔ cfg1.written.length = cfg1.readOut.length + 1) :=
  c3_index_invariants 1 cfg1 cfg1_reach

/-- C4.  In each transfer iteration the advanced index agrees with modular
arithmetic: whenever the moved byte count `m` respects the iteration's
chunk bound (`readChunk` for the reader's head, `writeChunk` for the
writer's tail — both capped by `cap - real_index(i)`, which forces
`i + m ≤ 2*cap`), the code's branch `if i + m < 2*cap then i + m else 0`
(`advance`) equals `(i + m) % (2*cap)`.  (The release-ordering publication
of the new index is outside the serialized embedding.) -/
theorem c4_index_advance_mod (cap : Nat) (s : PipeState)
    (h1 : s.head < 2 * cap) (h2 : s.tail < 2 * cap) :
    (∀ m, m ≤ readChunk cap s → advance cap s.head m = (s.head + m) % (2 * cap)) ∧
    (∀ m, m ≤ writeChunk cap s → advance cap s.tail m = (s.tail + m) % (2 * cap)) := by
  constructor
  · intro m hm
    have hc : readChunk cap s ≤ cap - realIndex cap s.head := min_le_right _ _
    exact advance_eq_mod (head_add_le h1 (by omega))
  · intro m hm
    have hc : writeChunk cap s ≤ cap - realIndex cap s.tail := min_le_right _ _
    exact advance_eq_mod (head_add_le h2 (by omega))

theorem c4_index_advance_mod_witness :
    advance 1 pipeEx.head 1 = (pipeEx.head + 1) % (2 * 1) :=
  (c4_index_advance_mod 1 pipeEx (by decide) (by decide)).1 1 (by decide)

/-- C5.  Zero-initialization safety of a `poll_write` iteration: the whole
slice `[real_index(tail), real_index(tail) + n)` exposed to the byte source
lies below `zeroed_until` at the moment of exposure; the iteration zeroes
at most `zeroed_until*2 + 4096` additional bytes; and the chunk `n`
(`writeChunk`) is capped by 128 KiB, by `zeroed_until*2 + 4096`, by the
free space `cap - distance`, and by the boundary `cap - real_index(tail)`. -/
theorem c5_zero_init (cap : Nat) (s : PipeState) (src : List Nat) (hinv : PipeInv cap s) :
    realIndex cap s.tail + writeChunk cap s ≤ (writeIter cap s src).1.zeroedUntil ∧
    (writeIter cap s src).1.zeroedUntil ≤ s.zeroedUntil + (s.zeroedUntil * 2 + 4096) ∧
    writeChunk cap s ≤ 128 * 1024 ∧
    writeChunk cap s ≤ s.zeroedUntil * 2 + 4096 ∧
    writeChunk cap s ≤ cap - dist cap s.wHead s.tail ∧
    writeChunk cap s ≤ cap - realIndex cap s.tail := by
  have hzu := writeIter_zu cap s src
  have hcov := writeZero_zu_covers cap s
  have ha : writeChunk cap s ≤ s.zeroedUntil * 2 + 4096 :=
    le_trans (min_le_left _ _) (le_trans (min_le_left _ _) (min_le_right _ _))
  have hb : writeChunk cap s ≤ 128 * 1024 :=
    le_trans (min_le_left _ _) (le_trans (min_le_left _ _) (min_le_left _ _))
  refine ⟨by rw [hzu]; exact hcov, ?_, hb, ha,
    le_trans (min_le_left _ _) (min_le_right _ _), min_le_right _ _⟩
  rw [hzu]
  rcases writeZero_zu_cases cap s with h | h <;> rw [h]
  · omega
  · have hge := hinv.zeroedGe
    omega

theorem c5_zero_init_witness :
    realIndex 1 pipeEx.tail + writeChunk 1 pipeEx ≤ (writeIter 1 pipeEx [3]).1.zeroedUntil ∧
    (writeIter 1 pipeEx [3]).1.zeroedUntil
      ≤ pipeEx.zeroedUntil + (pipeEx.zeroedUntil * 2 + 4096) ∧
    writeChunk 1 pipeEx ≤ 128 * 1024 ∧
    writeChunk 1 pipeEx ≤ pipeEx.zeroedUntil * 2 + 4096 ∧
    writeChunk 1 pipeEx ≤ 1 - dist 1 pipeEx.wHead pipeEx.tail ∧
    writeChunk 1 pipeEx ≤ 1 - realIndex 1 pipeEx.tail :=
  c5_zero_init 1 pipeEx [3] pipeEx_inv

/-- C6.  Close semantics: dropping either endpoint sets `closed` and wakes
the opposite waker; once `closed` is set, `poll_write` returns
`Ready(Ok(0))` leaving the pipe untouched; `poll_read` is never `Pending`
and returns the next `m` queued bytes in order (`m = 0` exactly when the
ring is already drained or the destination has no room, so repeated reads
drain the remaining bytes and then return `Ready(Ok(0))` forever); and no
step ever unsets `closed`. -/
theorem c6_close_semantics (cap : Nat) (s : PipeState) (src : List Nat) (destCap : Nat)
    (hinv : PipeInv cap s) :
    (dropWriterFn s).closed = true ∧ (dropWriterFn s).rNotified = true ∧
    (dropReaderFn s).closed = true ∧ (dropReaderFn s).wNotified = true ∧
    (s.closed = true → pollWrite cap s src = (s, Poll.ready 0)) ∧
    (s.closed = true → ∃ m,
      (pollRead cap s destCap).2 = Poll.ready (ringSeg cap s.buffer s.head m) ∧
      m ≤ dist cap s.head s.tail ∧
      (dist cap s.head s.tail = 0 → m = 0) ∧
      (dist cap s.head s.tail ≠ 0 → destCap ≠ 0 → m ≠ 0) ∧
      (pollReadSt cap s destCap).closed = true ∧
      (pollReadSt cap s destCap).tail = s.tail ∧
      (pollReadSt cap s destCap).buffer = s.buffer ∧
      dist cap (pollReadSt cap s destCap).head s.tail + m = dist cap s.head s.tail) ∧
    (∀ c c2 : Config, PipeStep cap c c2 → c.pipe.closed = true → c2.pipe.closed = true) := by
  refine ⟨rfl, rfl, rfl, rfl, ?_, ?_, fun c c2 hstep hcl => pipeStep_closed hstep hcl⟩
  · intro hcl
    obtain ⟨m, g1, g2, g3, g4, g5, g6, g7, g8, g9⟩ := pollWrite_spec cap s src hinv
    exact g9 hcl
  · intro hcl
    obtain ⟨m, g1, g2, g3, g4, g5, g6, g7, g8, g9, g10, g11, g12, g13⟩ :=
      pollRead_spec cap s destCap hinv
    refine ⟨m, ?_, g2, fun hd0 => by omega, ?_,
      (pollRead_closed cap s destCap).trans hcl, g4, g5, g10⟩
    · rw [g13 hcl, g1]
    · intro hd hdc hm0
      rcases g12 hm0 with h | h
      · exact hd h
      · exact hdc h

theorem c6_close_semantics_witness :
    (dropWriterFn pipeEx).closed = true ∧ (dropWriterFn pipeEx).rNotified = true :=
  ⟨(c6_close_semantics 1 pipeEx [3] 4 pipeEx_inv).1,
   (c6_close_semantics 1 pipeEx [3] 4 pipeEx_inv).2.1⟩

/-- C7.  Whenever `poll_stop` returns `Ready` — with `Ok` or with a stashed
I/O error — the new state is `Idle`; and because the state went Idle
before the error was propagated, polling again surfaces no error
(`ready none`): each stashed error is observed exactly once and subsequent
operations start from Idle. -/
theorem c7_poll_stop_idle (s s2 : BState) (r : Option Nat)
    (h : pollStop s = (s2, Poll.ready r)) :
    (∃ b, s2 = BState.idle b) ∧ pollStop s2 = (s2, Poll.ready none) := by
  obtain ⟨b, hb⟩ := pollStop_ready_idle h
  subst hb
  exact ⟨⟨b, rfl⟩, rfl⟩

theorem c7_poll_stop_idle_witness :
    pollStop (BState.idle true) = (BState.idle true, Poll.ready none) :=
  (c7_poll_stop_idle (BState.reading true (TaskSt.ready (some 7))) (BState.idle true)
    (some 7) rfl).2

/-- C8.  The writing-side task terminates in exactly two ways: after a
(possibly empty) prefix of successful non-zero reads, it either sees a
zero-byte read (pipe closed), flushes the sink, and returns the flush
result, or it sees a read error, still attempts a flush (whose outcome is
discarded), and returns the original error; in both cases exactly one
flush is attempted.  Conversely, any trace of those two shapes produces
exactly that returned value. -/
theorem c8_write_task_shutdown (fr : Except Nat Unit) (events : List ReadEvent)
    (res : Except Nat Unit × Nat) (h : writeTaskRun fr events = some res) :
    (res.2 = 1 ∧
      ((∃ pre rest, events = pre ++ ReadEvent.okRead 0 :: rest ∧
          (∀ ev, ev ∈ pre → ∃ n, ev = ReadEvent.okRead (n + 1)) ∧ res.1 = fr) ∨
       (∃ pre e rest, events = pre ++ ReadEvent.errRead e :: rest ∧
          (∀ ev, ev ∈ pre → ∃ n, ev = ReadEvent.okRead (n + 1)) ∧
          res.1 = Except.error e))) ∧
    (∀ pre rest2, (∀ ev, ev ∈ pre → ∃ n, ev = ReadEvent.okRead (n + 1)) →
      writeTaskRun fr (pre ++ ReadEvent.okRead 0 :: rest2) = some (fr, 1)) ∧
    (∀ pre e rest2, (∀ ev, ev ∈ pre → ∃ n, ev = ReadEvent.okRead (n + 1)) →
      writeTaskRun fr (pre ++ ReadEvent.errRead e :: rest2)
        = some (Except.error e, 1)) :=
  ⟨writeTaskRun_characterize fr events res h,
   fun pre rest2 hall => writeTaskRun_ok fr pre rest2 hall,
   fun pre e rest2 hall => writeTaskRun_err fr pre e rest2 hall⟩

theorem c8_write_task_shutdown_witness :
    writeTaskRun (Except.ok ()) [ReadEvent.okRead 5, ReadEvent.errRead 9]
      = some (Except.error 9, 1) :=
  (c8_write_task_shutdown (Except.ok ()) [ReadEvent.okRead 5, ReadEvent.okRead 0]
      (Except.ok (), 1) rfl).2.2 [ReadEvent.okRead 5] 9 []
    (by intro ev hev; simp at hev; exact ⟨4, by rw [hev]⟩)

/-- C9 (amended).  In every reachable executor state, `idle_count` equals
the number of workers waiting on the condition variable **plus** the
number of freshly spawned workers that have not yet made their first
acquisition of the mutex (each is accounted in `idle_count` by `grow_pool`
at spawn time and only stops being idle at the `idle_count -= 1` at the
top of `main_loop`). -/
theorem c9_idle_accounting (st : ExecState) (h : ExecReach st) :
    st.idleCount = st.waitingCount + st.freshCount := by
  have hinv := execReach_inv h
  have h1 := hinv.idleEq
  omega

theorem c9_idle_accounting_witness :
    (⟨1, 1, 1, 1, 0, 0⟩ : ExecState).idleCount
      = (⟨1, 1, 1, 1, 0, 0⟩ : ExecState).waitingCount
        + (⟨1, 1, 1, 1, 0, 0⟩ : ExecState).freshCount :=
  c9_idle_accounting ⟨1, 1, 1, 1, 0, 0⟩ execReach_example

/-- C9, counterexample to the claim as stated: after the very first
`schedule` on a fresh executor, `grow_pool` has spawned one thread which
is accounted in `idle_count` but has not yet reached the condition
variable, so `idle_count = 1` while the number of workers in the cvar wait
is `0` — the claimed equality fails precisely in the window the claim says
it covers. -/
theorem c9_idle_accounting_counterexample :
    ExecReach ⟨1, 1, 1, 1, 0, 0⟩ ∧
    ¬ ((⟨1, 1, 1, 1, 0, 0⟩ : ExecState).idleCount
        = (⟨1, 1, 1, 1, 0, 0⟩ : ExecState).waitingCount) :=
  ⟨execReach_example, by decide⟩

/-- C10.  `Future::poll`, `into_inner` and `get_mut` all drive `poll_stop`
but discard its `io::Result`: on a Reading/Writing state whose task ended
with an I/O error they return exactly what they return when the task ended
cleanly (the inner value, with no error indication), even though
`poll_stop` itself surfaces that error; and whenever `Future::poll`
completes it yields the inner-value outcome, never anything else. -/
theorem c10_errors_discarded :
    (∀ (p : Bool) (e : Nat),
      blockingFuturePoll (BState.reading p (TaskSt.ready (some e)))
        = blockingFuturePoll (BState.reading p (TaskSt.ready none)) ∧
      blockingFuturePoll (BState.writing p (TaskSt.ready (some e)))
        = blockingFuturePoll (BState.writing p (TaskSt.ready none)) ∧
      intoInnerPoll (BState.reading p (TaskSt.ready (some e)))
        = intoInnerPoll (BState.reading p (TaskSt.ready none)) ∧
      intoInnerPoll (BState.writing p (TaskSt.ready (some e)))
        = intoInnerPoll (BState.writing p (TaskSt.ready none)) ∧
      getMutPoll (BState.reading p (TaskSt.ready (some e)))
        = getMutPoll (BState.reading p (TaskSt.ready none)) ∧
      getMutPoll (BState.writing p (TaskSt.ready (some e)))
        = getMutPoll (BState.writing p (TaskSt.ready none)) ∧
      (pollStop (BState.reading p (TaskSt.ready (some e)))).2 = Poll.ready (some e) ∧
      (pollStop (BState.writing p (TaskSt.ready (some e)))).2 = Poll.ready (some e)) ∧
    (∀ s : BState, (blockingFuturePoll s).2 ≠ Poll.pending →
      (blockingFuturePoll s).2 ≠ Poll.ready none) := by
  constructor
  · intro p e
    exact ⟨rfl, rfl, rfl, rfl, rfl, rfl, rfl, rfl⟩
  · intro s hne
    rcases hps : pollStop s with ⟨s2, pr⟩
    cases pr with
    | pending =>
      exfalso
      apply hne
      unfold blockingFuturePoll
      rw [hps]
      cases s2 <;> rfl
    | ready r =>
      obtain ⟨b, hb⟩ := pollStop_ready_idle hps
      subst hb
      unfold blockingFuturePoll
      rw [hps]
      simp

theorem c10_errors_discarded_witness :
    blockingFuturePoll (BState.reading true (TaskSt.ready (some 3)))
      = blockingFuturePoll (BState.reading true (TaskSt.ready none)) ∧
    (blockingFuturePoll (BState.task true)).2 ≠ Poll.ready none :=
  ⟨(c10_errors_discarded.1 true 3).1,
   c10_errors_discarded.2 (BState.task true) (by decide)⟩

end BlockingCrate
